import Mathlib

/-!
Verification development for the cloudflare-ddns plugin sandboxing subsystem:
a shallow embedding of the host-side WASM driver
(src/config/ip_source/wasm/driver.rs) and of the companion runtime process
(modules/ddns-wasm-runtime/src/main.rs and pipe.rs), with theorems about the
wire codec, request correlation, dispatch validation, module execution, and
shutdown sequencing.

Bytes are modelled as natural numbers (an in-range byte is < 256), byte
streams as finite lists whose end marks end-of-stream (the peer closed), and
machine integers as Nat with explicit bounds where width matters.
-/

set_option maxRecDepth 4096

/-! ## Little-endian fixed-width integers
The wire format uses bincode with the Fixint + LittleEndian configuration
(BIN_CODE_CONFIG in both processes): u64 is 8 bytes little-endian, u32 is 4
bytes little-endian, enum discriminants are u32. -/

def leBytes : Nat → Nat → List Nat
  | 0, _ => []
  | k + 1, n => n % 256 :: leBytes k (n / 256)

def u64le (n : Nat) : List Nat := leBytes 8 n

def u32le (n : Nat) : List Nat := leBytes 4 n

def fromLeBytes : List Nat → Nat
  | [] => 0
  | b :: t => b + 256 * fromLeBytes t

/-! ## UTF-8 validity and lossy decoding
The runtime turns a failing guest's output bytes into an error message with
String::from_utf8_lossy; bincode string decoding (module identifiers, error
strings) validates UTF-8.  utf8Step classifies the head of a byte list: a
valid scalar encoding (returning the scalar's bytes and the rest), or an
invalid sequence together with how many bytes the lossy decoder skips for it
(Rust's maximal-subpart substitution). -/

def contb (b : Nat) : Bool := 128 ≤ b && b ≤ 191

def utf8Step : List Nat → (List Nat × List Nat) ⊕ Nat
  | [] => Sum.inr 1
  | b0 :: t =>
    if b0 < 128 then Sum.inl ([b0], t)
    else if 194 ≤ b0 && b0 ≤ 223 then
      match t with
      | b1 :: t1 => if contb b1 then Sum.inl ([b0, b1], t1) else Sum.inr 1
      | [] => Sum.inr 1
    else if b0 = 224 then
      match t with
      | b1 :: t1 =>
        if 160 ≤ b1 && b1 ≤ 191 then
          match t1 with
          | b2 :: t2 => if contb b2 then Sum.inl ([b0, b1, b2], t2) else Sum.inr 2
          | [] => Sum.inr 2
        else Sum.inr 1
      | [] => Sum.inr 1
    else if (225 ≤ b0 && b0 ≤ 236) || b0 = 238 || b0 = 239 then
      match t with
      | b1 :: t1 =>
        if contb b1 then
          match t1 with
          | b2 :: t2 => if contb b2 then Sum.inl ([b0, b1, b2], t2) else Sum.inr 2
          | [] => Sum.inr 2
        else Sum.inr 1
      | [] => Sum.inr 1
    else if b0 = 237 then
      match t with
      | b1 :: t1 =>
        if 128 ≤ b1 && b1 ≤ 159 then
          match t1 with
          | b2 :: t2 => if contb b2 then Sum.inl ([b0, b1, b2], t2) else Sum.inr 2
          | [] => Sum.inr 2
        else Sum.inr 1
      | [] => Sum.inr 1
    else if b0 = 240 then
      match t with
      | b1 :: t1 =>
        if 144 ≤ b1 && b1 ≤ 191 then
          match t1 with
          | b2 :: t2 =>
            if contb b2 then
              match t2 with
              | b3 :: t3 => if contb b3 then Sum.inl ([b0, b1, b2, b3], t3) else Sum.inr 3
              | [] => Sum.inr 3
            else Sum.inr 2
          | [] => Sum.inr 2
        else Sum.inr 1
      | [] => Sum.inr 1
    else if 241 ≤ b0 && b0 ≤ 243 then
      match t with
      | b1 :: t1 =>
        if contb b1 then
          match t1 with
          | b2 :: t2 =>
            if contb b2 then
              match t2 with
              | b3 :: t3 => if contb b3 then Sum.inl ([b0, b1, b2, b3], t3) else Sum.inr 3
              | [] => Sum.inr 3
            else Sum.inr 2
          | [] => Sum.inr 2
        else Sum.inr 1
      | [] => Sum.inr 1
    else if b0 = 244 then
      match t with
      | b1 :: t1 =>
        if 128 ≤ b1 && b1 ≤ 143 then
          match t1 with
          | b2 :: t2 =>
            if contb b2 then
              match t2 with
              | b3 :: t3 => if contb b3 then Sum.inl ([b0, b1, b2, b3], t3) else Sum.inr 3
              | [] => Sum.inr 3
            else Sum.inr 2
          | [] => Sum.inr 2
        else Sum.inr 1
      | [] => Sum.inr 1
    else Sum.inr 1

def validUtf8Aux : Nat → List Nat → Bool
  | _, [] => true
  | 0, _ :: _ => false
  | fuel + 1, l =>
    match utf8Step l with
    | Sum.inl (_, rest) => validUtf8Aux fuel rest
    | Sum.inr _ => false

def validUtf8 (l : List Nat) : Bool := validUtf8Aux l.length l

def utf8LossyAux : Nat → List Nat → List Nat
  | _, [] => []
  | 0, _ :: _ => []
  | fuel + 1, l =>
    match utf8Step l with
    | Sum.inl (s, rest) => s ++ utf8LossyAux fuel rest
    | Sum.inr k => 239 :: 191 :: 189 :: utf8LossyAux fuel (l.drop k)

def utf8Lossy (l : List Nat) : List Nat := utf8LossyAux l.length l

/-! ## Wire messages (data model)
Command (host to runtime): Shutdown or Request { id : u64, module, data };
Response (runtime to host): { id : u64, response : Result of bytes / string }.
Strings travel as their UTF-8 bytes. -/

structure WireRequest where
  id : Nat
  module : List Nat
  data : List Nat
deriving DecidableEq

inductive WireCommand where
  | shutdown
  | request (q : WireRequest)
deriving DecidableEq

inductive WireResult where
  | ok (bytes : List Nat)
  | err (msg : List Nat)
deriving DecidableEq

structure WireResponse where
  id : Nat
  response : WireResult
deriving DecidableEq

/-- Well-formedness of a Request as the host produces it: the id fits in a
u64, the module identifier is the UTF-8 byte encoding of a str, and lengths
fit comfortably (the payload of a run call is at most u32-many bytes). -/
def WireRequest.wf (q : WireRequest) : Prop :=
  q.id < 2 ^ 64 ∧ validUtf8 q.module = true ∧ q.module.length < 2 ^ 32 ∧
    q.data.length < 2 ^ 32

/-- Well-formedness of a Response as the runtime produces it: u64 id, and the
error side (a Rust String) is valid UTF-8. -/
def WireResponse.wf (r : WireResponse) : Prop :=
  r.id < 2 ^ 64 ∧
    match r.response with
    | .ok v => v.length < 2 ^ 32
    | .err e => validUtf8 e = true ∧ e.length < 2 ^ 32

/-! ## bincode encoding (Encode derive, fixed int, little endian) -/

/-- A byte slice / Vec of bytes: u64 length then the raw bytes. -/
def encBytes (b : List Nat) : List Nat := u64le b.length ++ b

/-- Payload encoding of WasmCommand: enum discriminant as u32, then fields. -/
def encodeCommandPayload : WireCommand → List Nat
  | .shutdown => u32le 0
  | .request q => u32le 1 ++ u64le q.id ++ encBytes q.module ++ encBytes q.data

/-- Payload encoding of Response: u64 id, then Result as a two-variant enum. -/
def encodeResponsePayload (r : WireResponse) : List Nat :=
  u64le r.id ++
    match r.response with
    | .ok v => u32le 0 ++ encBytes v
    | .err e => u32le 1 ++ encBytes e

/-- SizeWriter pass of WasmDriver::write_command: the encoded payload size
computed without materializing the bytes. -/
def sizeCommand : WireCommand → Nat
  | .shutdown => 4
  | .request q => 4 + 8 + (8 + q.module.length) + (8 + q.data.length)

/-- SizeWriter pass of the runtime's write_command (Response encoding). -/
def sizeResponse (r : WireResponse) : Nat :=
  8 +
    match r.response with
    | .ok v => 4 + (8 + v.length)
    | .err e => 4 + (8 + e.length)

/-! ## Decoding -/

inductive ProtoError where
  /-- bincode decode failure inside a payload (UnexpectedEnd, bad variant,
  invalid UTF-8 in a string field). -/
  | decodeFail
  /-- WasmDriver::read_response: the ensure that the payload byte count
  matches the length prefix fails ("child provided invalid response length"). -/
  | invalidLength
  /-- get_request: read_exact hit end-of-stream inside the payload; the io
  error is propagated, not folded into the stream-closed result. -/
  | eofPayload
deriving DecidableEq

def decodeU64 (s : List Nat) : Except ProtoError (Nat × List Nat) :=
  if 8 ≤ s.length then .ok (fromLeBytes (s.take 8), s.drop 8) else .error .decodeFail

def decodeU32 (s : List Nat) : Except ProtoError (Nat × List Nat) :=
  if 4 ≤ s.length then .ok (fromLeBytes (s.take 4), s.drop 4) else .error .decodeFail

def decodeBytes (s : List Nat) : Except ProtoError (List Nat × List Nat) :=
  match decodeU64 s with
  | .error e => .error e
  | .ok (n, s1) =>
    if n ≤ s1.length then .ok (s1.take n, s1.drop n) else .error .decodeFail

/-- bincode str/String decoding: bytes, then UTF-8 validation. -/
def decodeStr (s : List Nat) : Except ProtoError (List Nat × List Nat) :=
  match decodeBytes s with
  | .error e => .error e
  | .ok (b, s1) => if validUtf8 b then .ok (b, s1) else .error .decodeFail

def decodeCommandPayload (s : List Nat) : Except ProtoError (WireCommand × List Nat) :=
  match decodeU32 s with
  | .error e => .error e
  | .ok (v, s1) =>
    if v = 0 then .ok (.shutdown, s1)
    else if v = 1 then
      match decodeU64 s1 with
      | .error e => .error e
      | .ok (id, s2) =>
        match decodeStr s2 with
        | .error e => .error e
        | .ok (m, s3) =>
          match decodeBytes s3 with
          | .error e => .error e
          | .ok (d, s4) => .ok (.request ⟨id, m, d⟩, s4)
    else .error .decodeFail

def decodeResponsePayload (s : List Nat) : Except ProtoError (WireResponse × List Nat) :=
  match decodeU64 s with
  | .error e => .error e
  | .ok (id, s1) =>
    match decodeU32 s1 with
    | .error e => .error e
    | .ok (v, s2) =>
      if v = 0 then
        match decodeBytes s2 with
        | .error e => .error e
        | .ok (b, s3) => .ok (⟨id, .ok b⟩, s3)
      else if v = 1 then
        match decodeStr s2 with
        | .error e => .error e
        | .ok (e2, s3) => .ok (⟨id, .err e2⟩, s3)
      else .error .decodeFail

/-- Does a command payload decode to the Shutdown variant? (get_request folds
that case into its None result as well.) -/
def decodesToShutdown (p : List Nat) : Bool :=
  match decodeCommandPayload p with
  | .ok (.shutdown, _) => true
  | _ => false

/-- Distinguishes the "stream closed" outcome (Ok(None)) of the two frame
decoders from frames and from errors. -/
def isStreamClosed {α : Type} : Except ProtoError (Option α × List Nat) → Bool
  | .ok (none, _) => true
  | _ => false

namespace WasmDriver

/-- WasmDriver::write_command: a SizeWriter pass computes the payload size,
the frame is the size as u64 little-endian followed by the encoded payload. -/
def write_command (c : WireCommand) : List Nat :=
  u64le (sizeCommand c) ++ encodeCommandPayload c

/-- WasmDriver::read_response over a byte stream (list end = peer closed):
read_u64_le (an UnexpectedEof during those 8 bytes is mapped to Ok(None)),
then take(len).read_to_end, the ensure on the byte count, then bincode
decoding of the payload.  Returns the decoded frame (or None for stream
closed) and the unconsumed rest of the stream. -/
def read_response (s : List Nat) :
    Except ProtoError (Option WireResponse × List Nat) :=
  if s.length < 8 then .ok (none, [])
  else
    let len := fromLeBytes (s.take 8)
    let rest := s.drop 8
    let payload := rest.take len
    if payload.length = len then
      match decodeResponsePayload payload with
      | .ok (r, _) => .ok (some r, rest.drop len)
      | .error e => .error e
    else .error .invalidLength

end WasmDriver

namespace DdnsWasmRuntime

/-- The runtime's write_command (modules/ddns-wasm-runtime/src/main.rs):
frames a Response exactly like the host frames a Command. -/
def write_command (r : WireResponse) : List Nat :=
  u64le (sizeResponse r) ++ encodeResponsePayload r

/-- get_request: read_u64_le (UnexpectedEof mapped to Ok(None)), then
read_exact of the announced payload (an EOF inside it is a propagated error),
then bincode decoding of WasmCommand; a decoded Shutdown is also returned as
None ("no further requests"). -/
def get_request (s : List Nat) :
    Except ProtoError (Option WireRequest × List Nat) :=
  if s.length < 8 then .ok (none, [])
  else
    let len := fromLeBytes (s.take 8)
    let rest := s.drop 8
    if len ≤ rest.length then
      match decodeCommandPayload (rest.take len) with
      | .ok (.shutdown, _) => .ok (none, rest.drop len)
      | .ok (.request q, _) => .ok (some q, rest.drop len)
      | .error e => .error e
    else .error .eofPayload

end DdnsWasmRuntime

/-! ## Host driver read task and the correlation map
The RequestsMap is a DashMap from u64 request ids to oneshot completion
handles; a handle is modelled by an abstract identifier.  The read task
executes, per decoded Response:
  if let Some((_, sender)) = requests_map.remove(&response.id)
      { let _ = sender.send(response.response); }
-/

namespace WasmDriver

/-- Pending correlation entries: (request id, completion handle id). -/
abbrev RequestsMap := List (Nat × Nat)

/-- DashMap keys are unique. -/
abbrev keysNodup (m : RequestsMap) : Prop := (m.map Prod.fst).Nodup

def mapLookup (m : RequestsMap) (id : Nat) : Option Nat :=
  (m.find? (fun e => e.1 == id)).map (·.2)

/-- DashMap::remove of the entry keyed by id. -/
def mapRemove (m : RequestsMap) (id : Nat) : RequestsMap :=
  m.eraseP (fun e => e.1 == id)

/-- One iteration of the read task body on a decoded Response: the updated
map, and the completion (handle id, carried result) performed, if any. -/
def read_task_step (m : RequestsMap) (resp : WireResponse) :
    RequestsMap × Option (Nat × WireResult) :=
  match mapLookup m resp.id with
  | some h => (mapRemove m resp.id, some (h, resp.response))
  | none => (m, none)

end WasmDriver

/-! ## Host driver write task: shutdown sequencing (driver.rs, _open)
Once receiver.recv() returns None (work queue closed) the write task runs, in
program order: a select between the 8ms-polling drain loop on the requests
map and sleep(REQUEST_TIMEOUT); write_command(Shutdown); send.shutdown();
timeout(15s, child.wait()) with child.kill() on Elapsed.  The machine below
is that control flow; inputs are the scheduler/environment observations, and
the emitted events are the externally visible actions in order. -/

namespace WasmDriver

def REQUEST_TIMEOUT_MS : Nat := 10000

def CHILD_WAIT_MS : Nat := 15000

def DRAIN_POLL_MS : Nat := 8

inductive WtPhase where
  /-- while let Some((module, data, recv)) = receiver.recv().await -/
  | looping
  /-- the select between the map-drain poll loop and sleep(REQUEST_TIMEOUT) -/
  | draining (elapsedMs : Nat)
  /-- about to execute write_command(Shutdown) -/
  | sendingShutdown
  /-- about to execute send.shutdown() -/
  | closingSend
  /-- inside timeout(15s, child.wait()) -/
  | waitingChild (elapsedMs : Nat)
  | finished
deriving DecidableEq

inductive WtEvent where
  | sentRequest (id : Nat)
  | drainDone
  | sentShutdown
  | closedSendHalf
  | childExited
  | killedChild
deriving DecidableEq

inductive WtInput where
  /-- receiver.recv() yielded a work item; a Request with this id is written. -/
  | workItem (id : Nat)
  /-- receiver.recv() returned None: the work queue is closed. -/
  | queueClosed
  /-- one drain-poll iteration ran, observing whether the map is empty. -/
  | drainPoll (mapEmpty : Bool)
  /-- the next sequential statement executes. -/
  | step
  /-- one millisecond passes while awaiting the child. -/
  | waitTick
  /-- child.wait() resolved: the child process exited on its own. -/
  | childExit
deriving DecidableEq

def wtStep : WtPhase → WtInput → WtPhase × List WtEvent
  | .looping, .workItem id => (.looping, [.sentRequest id])
  | .looping, .queueClosed => (.draining 0, [])
  | .draining t, .drainPoll mapEmpty =>
    if REQUEST_TIMEOUT_MS ≤ t then (.sendingShutdown, [.drainDone])
    else if mapEmpty then (.sendingShutdown, [.drainDone])
    else (.draining (t + DRAIN_POLL_MS), [])
  | .sendingShutdown, .step => (.closingSend, [.sentShutdown])
  | .closingSend, .step => (.waitingChild 0, [.closedSendHalf])
  | .waitingChild _, .childExit => (.finished, [.childExited])
  | .waitingChild t, .waitTick =>
    if CHILD_WAIT_MS ≤ t + 1 then (.finished, [.killedChild])
    else (.waitingChild (t + 1), [])
  | p, _ => (p, [])

def wtRun (inputs : List WtInput) : WtPhase × List WtEvent :=
  inputs.foldl (fun st i =>
    let next := wtStep st.1 i
    (next.1, st.2 ++ next.2)) (.looping, [])

/-- The lifecycle events of the shutdown sequence (the per-request
sentRequest events filtered out). -/
def ctrlEvents (evs : List WtEvent) : List WtEvent :=
  evs.filter fun e =>
    match e with
    | .sentRequest _ => false
    | _ => true

/-- Which control events each phase implies have already happened, phrased so
that the order drain-complete, Shutdown sent, send half closed, child
exit/kill is explicit; together with the time bounds of the two waits. -/
def wtInv : WtPhase → List WtEvent → Prop
  | .looping, ctrl => ctrl = []
  | .draining t, ctrl =>
    ctrl = [] ∧ t ≤ REQUEST_TIMEOUT_MS ∧ DRAIN_POLL_MS ∣ t
  | .sendingShutdown, ctrl => ctrl = [.drainDone]
  | .closingSend, ctrl => ctrl = [.drainDone, .sentShutdown]
  | .waitingChild t, ctrl =>
    ctrl = [.drainDone, .sentShutdown, .closedSendHalf] ∧ t + 1 ≤ CHILD_WAIT_MS
  | .finished, ctrl =>
    ctrl = [.drainDone, .sentShutdown, .closedSendHalf, .childExited] ∨
      ctrl = [.drainDone, .sentShutdown, .closedSendHalf, .killedChild]

end WasmDriver

/-! ## Runtime dispatch loop: module identifier validation (main.rs)
A Request whose module path is not absolute is answered immediately with an
error Response carrying the same id, and the per-request task (module cache
consultation, filesystem read, guest invocation) is never spawned. -/

namespace DdnsWasmRuntime

/-- Path::new(s).is_absolute() on a unix target: the path has a root, i.e.
its byte encoding starts with the byte of the / separator (47). -/
def pathIsAbsolute (m : List Nat) : Bool :=
  match m with
  | [] => false
  | b :: _ => b == 47

inductive DispatchAction where
  /-- tx.send of an error Response, then continue (no task spawned). -/
  | sendErrorResponse (id : Nat) (msg : String)
  /-- joins.spawn of the per-request task. -/
  | spawnModuleTask (id : Nat) (module : List Nat) (data : List Nat)
deriving DecidableEq

/-- Everything the dispatch loop does with one decoded Request. -/
def dispatch_request (q : WireRequest) : DispatchAction :=
  if pathIsAbsolute q.module then .spawnModuleTask q.id q.module q.data
  else .sendErrorResponse q.id "You must provide absolute paths as the module path"

inductive DispatchEffect where
  | sendResponse (id : Nat) (isError : Bool)
  /-- get_or_init_module: lock the module cache and look the key up. -/
  | cacheConsult (module : List Nat)
  /-- WasmDdnsStep::new: tokio::fs::read of the module identifier. -/
  | fsRead (module : List Nat)
  | invokeGuest (module : List Nat)
deriving DecidableEq

/-- The externally visible effects of each dispatch action, in order. -/
def dispatchEffects : DispatchAction → List DispatchEffect
  | .sendErrorResponse id _ => [.sendResponse id true]
  | .spawnModuleTask id m _ =>
    [.cacheConsult m, .fsRead m, .invokeGuest m, .sendResponse id false]

end DdnsWasmRuntime

/-! ## Module executor: pipes and WasmDdnsStep::run
A ReadWritePipe is a mutex-protected byte deque; write clears it and extends
with the data, take_output copies the whole contents out and clears.  run
checks u32::try_from(data.len()), locks the store, writes the stdin pipe,
calls the exported entry point with the input length, and interprets the
returned status, taking the stdout pipe's contents. -/

namespace DdnsWasmRuntime

/-- ReadWritePipe::write: lock.clear(); lock.extend(data). -/
def pipe_write (_residue : List Nat) (data : List Nat) : List Nat :=
  let cleared : List Nat := []
  cleared ++ data

/-- ReadWritePipe::take_output: copy both slices of the deque out, clear it;
returns (contents taken, buffer left behind). -/
def take_output (buf : List Nat) : List Nat × List Nat := (buf, [])

structure Pipes where
  stdin : List Nat
  stdout : List Nat
deriving DecidableEq

/-- What a guest call produces: an i32 status, or a trap/engine error from
call_async (propagated by run before the output pipe is read). -/
inductive GuestResult where
  | trap
  | status (code : Int)
deriving DecidableEq

inductive RunError where
  /-- u32::try_from(data.len()) failed: "data capacity overflow". -/
  | capacityOverflow
  /-- main.call_async returned Err (guest trap or engine failure). -/
  | trapped
  /-- non-zero status: the output bytes as a lossy-decoded UTF-8 message. -/
  | guestError (msg : List Nat)
deriving DecidableEq

inductive RunRes where
  | ok (bytes : List Nat)
  | err (e : RunError)
deriving DecidableEq

/-- The error message of a failing guest: String::from_utf8_lossy on the
output bytes; when that borrows (the bytes are valid UTF-8) the bytes are
reused unchanged via from_utf8_unchecked. -/
def guestErrMsg (output : List Nat) : List Nat :=
  if validUtf8 output then output else utf8Lossy output

/-- The observable outcome of one WasmDdnsStep::run call: its return value,
the pipe buffers afterwards, whether the store lock was ever acquired, and
the guest invocation (argument and pipe state at the call), if it happened. -/
structure RunOutcome where
  result : RunRes
  pipes : Pipes
  lockedStore : Bool
  guestCall : Option (Nat × Pipes)
deriving DecidableEq

/-- WasmDdnsStep::run.  The guest entry point is an arbitrary function from
the input length argument and the pipe state (it reads the stdin pipe,
writes the stdout pipe through the bound SharedCtxFile) to a GuestResult and
the pipe state it leaves behind. -/
def WasmDdnsStep.run (guest : Nat → Pipes → GuestResult × Pipes)
    (p : Pipes) (data : List Nat) : RunOutcome :=
  if data.length < 2 ^ 32 then
    let p1 : Pipes := { p with stdin := pipe_write p.stdin data }
    match guest data.length p1 with
    | (.trap, p2) =>
      { result := .err .trapped, pipes := p2, lockedStore := true,
        guestCall := some (data.length, p1) }
    | (.status c, p2) =>
      let taken := take_output p2.stdout
      let p3 : Pipes := { p2 with stdout := taken.2 }
      { result :=
          if c = 0 then .ok taken.1 else .err (.guestError (guestErrMsg taken.1)),
        pipes := p3, lockedStore := true, guestCall := some (data.length, p1) }
  else
    { result := .err .capacityOverflow, pipes := p, lockedStore := false,
      guestCall := none }

end DdnsWasmRuntime

/-! ## Runtime process lifecycle (main.rs, main)
main runs a JoinSet with three tasks: the writer loop (returns its send half),
the dispatch loop (returns None), and a blocking watcher of the process's own
inherited stdin that returns Ok(None) once read_line yields Err or Ok(0).
The collector loop joins tasks one at a time, calling shutdown only on a
returned send half, and main returns only when the set is empty. -/

namespace DdnsWasmRuntime

inductive StdinRead where
  /-- read_line returned Ok(n). -/
  | line (n : Nat)
  /-- read_line returned Err(_). -/
  | ioFailure
deriving DecidableEq

/-- The blocking stdin watcher: loops over read_line results; breaks with
result Ok(None) at the first Err or Ok(0).  Returns none while the given
observations do not make it break (it is still blocked reading). -/
def stdin_watcher : List StdinRead → Option (Option Unit)
  | [] => none
  | .ioFailure :: _ => some none
  | .line 0 :: _ => some none
  | .line (_ + 1) :: rest => stdin_watcher rest

/-- The read_line results on which the watcher's loop breaks: an io error or
a zero-byte read (EOF). -/
def stdinTerminator : StdinRead → Bool
  | .ioFailure => true
  | .line 0 => true
  | .line (_ + 1) => false

inductive MainAction where
  /-- sender.shutdown() on the send half returned by the writer loop. -/
  | shutdownSendHalf
deriving DecidableEq

/-- The body of the collector loop for one joined task result
(if let Some(mut sender) = next?? { sender.shutdown().await? }). -/
def handle_join : Option Unit → List MainAction
  | some _ => [.shutdownSendHalf]
  | none => []

structure RuntimeTasks where
  dispatchDone : Bool
  writerDone : Bool
  stdinWatcherDone : Bool
deriving DecidableEq

/-- main returns (the process exits) exactly when join_next has drained the
JoinSet, i.e. when all three spawned tasks have finished. -/
def runtime_exited (t : RuntimeTasks) : Bool :=
  t.dispatchDone && t.writerDone && t.stdinWatcherDone

end DdnsWasmRuntime

/-! ## Module cache: lazy shared module initialization (main.rs)
get_or_init_module locks a Mutex around a BTreeMap from module identifier to
Arc of tokio OnceCell, inserting a fresh cell for an unseen key, and then
runs get_or_try_init(WasmDdnsStep::new) on the obtained cell.  The model
below is an interleaving semantics of n callers: each scheduler step runs one
caller to its next suspension point; cell semantics follow tokio OnceCell
(one initializer at a time holds the permit; on its failure the error goes to
that caller only and the cell reverts to empty, letting a waiter attempt a
fresh initialization; on success the cell is permanently initialized). -/

namespace DdnsWasmRuntime

abbrev ModKey := List Nat

inductive CellSt where
  | empty
  | running
  | ready (v : Nat)
deriving DecidableEq

structure CellInfo where
  st : CellSt
  /-- how many initializations have ever started on this cell. -/
  inits : Nat
deriving DecidableEq

inductive CallRes where
  | ok (v : Nat)
  | fail (attempt : Nat)
deriving DecidableEq

inductive CallerSt where
  /-- about to lock the cache and fetch-or-insert its key's cell. -/
  | start (key : ModKey)
  /-- holds the Arc of its key's cell; about to enter get_or_try_init. -/
  | atCell (key : ModKey) (cell : Nat)
  /-- holds the cell's init permit and is running WasmDdnsStep::new;
  attempt is a globally unique tag for this initialization. -/
  | runningInit (key : ModKey) (cell : Nat) (attempt : Nat)
  /-- suspended on the cell's semaphore while another caller runs init. -/
  | waitingCell (key : ModKey) (cell : Nat)
  | done (key : ModKey) (res : CallRes)
deriving DecidableEq

structure CacheState where
  cache : List (ModKey × Nat)
  cells : List CellInfo
  callers : List CallerSt
  /-- total number of initializations ever started (the spec's counter). -/
  initCount : Nat
deriving DecidableEq

def cacheGet (cache : List (ModKey × Nat)) (k : ModKey) : Option Nat :=
  (cache.find? (fun e => e.1 == k)).map (·.2)

/-- A caller arriving at its cell inside get_or_try_init (either entering, or
woken on the semaphore): reads the cell state; an empty cell means it takes
the permit and starts initializing, a running cell means it waits, a ready
cell means it returns the shared value. -/
def cacheAttempt (st : CacheState) (i : Nat) (k : ModKey) (c : Nat) : CacheState :=
  match st.cells[c]? with
  | none => st
  | some info =>
    match info.st with
    | .empty =>
      { st with
        cells := st.cells.set c ⟨.running, info.inits + 1⟩,
        callers := st.callers.set i (.runningInit k c st.initCount),
        initCount := st.initCount + 1 }
    | .running => { st with callers := st.callers.set i (.waitingCell k c) }
    | .ready v => { st with callers := st.callers.set i (.done k (.ok v)) }

/-- One scheduler step: run caller i to its next suspension point; outcome
tells whether a completing WasmDdnsStep::new succeeds or errors. -/
def cacheStep (st : CacheState) (i : Nat) (outcome : Bool) : CacheState :=
  match st.callers[i]? with
  | none => st
  | some (.start k) =>
    match cacheGet st.cache k with
    | some c => { st with callers := st.callers.set i (.atCell k c) }
    | none =>
      { st with
        cache := st.cache ++ [(k, st.cells.length)],
        cells := st.cells ++ [⟨.empty, 0⟩],
        callers := st.callers.set i (.atCell k st.cells.length) }
  | some (.atCell k c) => cacheAttempt st i k c
  | some (.waitingCell k c) => cacheAttempt st i k c
  | some (.runningInit k c a) =>
    match st.cells[c]? with
    | none => st
    | some info =>
      if outcome then
        { st with
          cells := st.cells.set c ⟨.ready a, info.inits⟩,
          callers := st.callers.set i (.done k (.ok a)) }
      else
        { st with
          cells := st.cells.set c ⟨.empty, info.inits⟩,
          callers := st.callers.set i (.done k (.fail a)) }
  | some (.done _ _) => st

def cacheRun (st : CacheState) (sched : List (Nat × Bool)) : CacheState :=
  sched.foldl (fun st s => cacheStep st s.1 s.2) st

/-- n concurrent first-time callers, one per listed module key. -/
def cacheInit (keys : List ModKey) : CacheState :=
  ⟨[], [], keys.map .start, 0⟩

/-- The key and cell a caller is currently bound to, if any. -/
def callerCell : CallerSt → Option (ModKey × Nat)
  | .atCell k c => some (k, c)
  | .runningInit k c _ => some (k, c)
  | .waitingCell k c => some (k, c)
  | _ => none

def isRunningInitOn (c : Nat) : CallerSt → Bool
  | .runningInit _ c' _ => c' == c
  | _ => false

def isReadyInfo (info : CellInfo) : Bool :=
  match info.st with
  | .ready _ => true
  | _ => false

/-- How many callers currently hold cell c's init permit (are running
WasmDdnsStep::new for it). -/
def callersInitializingOn (st : CacheState) (c : Nat) : Nat :=
  st.callers.countP (isRunningInitOn c)

/-- The module cache invariant: cache keys are unique and point into the
cells table; every caller bound to a cell got it from the cache (so same key
means same cell); a cell's init permit is held by exactly one caller while it
is running and by none otherwise; and every successfully completed caller
holds exactly the ready value of its key's cell. -/
def cacheInv (st : CacheState) : Prop :=
  st.cache.Pairwise (fun a b => a.1 ≠ b.1) ∧
  (∀ p ∈ st.cache, p.2 < st.cells.length) ∧
  (∀ (i : Nat) cs k c, st.callers[i]? = some cs → callerCell cs = some (k, c) →
    cacheGet st.cache k = some c) ∧
  (∀ c, callersInitializingOn st c =
    (match st.cells[c]? with
     | some info => if info.st = .running then 1 else 0
     | none => 0)) ∧
  (∀ (i : Nat) k v, st.callers[i]? = some (CallerSt.done k (.ok v)) →
    ∃ c info, cacheGet st.cache k = some c ∧ st.cells[c]? = some info ∧
      info.st = .ready v)

end DdnsWasmRuntime

/-! # Theorems -/

/-! ## Basic lemmas -/

theorem length_leBytes (k n : Nat) : (leBytes k n).length = k := by
  induction k generalizing n with
  | zero => rfl
  | succ k ih => simp [leBytes, ih]

theorem fromLeBytes_leBytes (k n : Nat) :
    fromLeBytes (leBytes k n) = n % 256 ^ k := by
  induction k generalizing n with
  | zero => simp [leBytes, fromLeBytes, Nat.mod_one]
  | succ k ih =>
    simp only [leBytes, fromLeBytes, ih]
    rw [Nat.pow_succ', Nat.mod_mul]

theorem fromLeBytes_leBytes_of_lt {k n : Nat} (h : n < 256 ^ k) :
    fromLeBytes (leBytes k n) = n := by
  rw [fromLeBytes_leBytes, Nat.mod_eq_of_lt h]

theorem take_len_append {α : Type} (l t : List α) : (l ++ t).take l.length = l := by
  induction l with
  | nil => rfl
  | cons a l ih => simp [ih]

theorem drop_len_append {α : Type} (l t : List α) : (l ++ t).drop l.length = t := by
  induction l with
  | nil => rfl
  | cons a l ih => simp [ih]

/-! ## C1 helper lemmas: the correlation map -/

namespace WasmDriver

theorem mapLookup_none_of_not_mem {m : RequestsMap} {id : Nat}
    (h : id ∉ m.map Prod.fst) : mapLookup m id = none := by
  induction m with
  | nil => rfl
  | cons a t ih =>
    simp only [List.map_cons, List.mem_cons] at h
    push_neg at h
    have h1 : (a.1 == id) = false := by
      rw [beq_eq_false_iff_ne]
      exact Ne.symm h.1
    simp only [mapLookup, List.find?, h1]
    exact ih h.2

theorem mapLookup_mapRemove_self {m : RequestsMap} {id : Nat}
    (h : keysNodup m) : mapLookup (mapRemove m id) id = none := by
  induction m with
  | nil => rfl
  | cons a t ih =>
    simp only [keysNodup, List.map_cons, List.nodup_cons] at h
    by_cases ha : a.1 = id
    · have : (a.1 == id) = true := by simp [ha]
      simp only [mapRemove, List.eraseP_cons, this]
      subst ha
      exact mapLookup_none_of_not_mem h.1
    · have hb : (a.1 == id) = false := by simp [ha]
      simp only [mapRemove, List.eraseP_cons, hb]
      simp only [mapLookup, List.find?, hb]
      exact ih h.2

theorem mapLookup_mapRemove_ne {m : RequestsMap} {id id' : Nat}
    (h : id' ≠ id) : mapLookup (mapRemove m id) id' = mapLookup m id' := by
  induction m with
  | nil => rfl
  | cons a t ih =>
    by_cases ha : a.1 = id
    · have hb : (a.1 == id) = true := by simp [ha]
      have hc : (a.1 == id') = false := by
        simp only [beq_eq_false_iff_ne, ne_eq]
        omega
      simp [mapRemove, List.eraseP_cons, hb, mapLookup, List.find?, hc]
    · have hb : (a.1 == id) = false := by simp [ha]
      by_cases hc : a.1 = id'
      · have hd : (a.1 == id') = true := by simp [hc]
        simp [mapRemove, List.eraseP_cons, hb, mapLookup, List.find?, hd]
      · have hd : (a.1 == id') = false := by simp [hc]
        simp only [mapRemove, List.eraseP_cons, hb, cond_false]
        simp only [mapLookup, List.find?, hd]
        exact ih

end WasmDriver

/-- C1.  For every Response decoded by the read task: if a correlation entry
with the Response's id is pending, the step removes exactly that entry (its
own id no longer resolves, every other id resolves as before) and completes
that entry's handle with the Response's carried result; if no entry with that
id is pending, the map is unchanged and no handle is completed. -/
theorem c1_read_task_correlation (m : WasmDriver.RequestsMap)
    (resp : WireResponse) (hnodup : WasmDriver.keysNodup m) :
    (∀ h : Nat, WasmDriver.mapLookup m resp.id = some h →
      WasmDriver.read_task_step m resp =
        (WasmDriver.mapRemove m resp.id, some (h, resp.response)) ∧
      WasmDriver.mapLookup (WasmDriver.mapRemove m resp.id) resp.id = none ∧
      ∀ id' : Nat, id' ≠ resp.id →
        WasmDriver.mapLookup (WasmDriver.mapRemove m resp.id) id' =
          WasmDriver.mapLookup m id') ∧
    (WasmDriver.mapLookup m resp.id = none →
      WasmDriver.read_task_step m resp = (m, none)) := by
  constructor
  · intro h hh
    refine ⟨?_, WasmDriver.mapLookup_mapRemove_self hnodup, ?_⟩
    · simp [WasmDriver.read_task_step, hh]
    · intro id' hne
      exact WasmDriver.mapLookup_mapRemove_ne hne
  · intro hnone
    simp [WasmDriver.read_task_step, hnone]

/-- Witness for C1 at a concrete map and Response. -/
theorem c1_read_task_correlation_witness :
    WasmDriver.keysNodup [(1, 10), (2, 20)] ∧
    WasmDriver.read_task_step [(1, 10), (2, 20)] ⟨1, .ok [7]⟩ =
      ([(2, 20)], some (10, .ok [7])) := by
  refine ⟨by decide, ?_⟩
  have := (c1_read_task_correlation [(1, 10), (2, 20)] ⟨1, .ok [7]⟩ (by decide)).1
    10 (by decide)
  exact this.1

/-- C3.  A Request whose module identifier is not an absolute path is
answered immediately with an error Response carrying the same id, and its
dispatch performs no module-cache consultation, no filesystem access and no
guest invocation. -/
theorem c3_reject_relative_module (q : WireRequest)
    (h : DdnsWasmRuntime.pathIsAbsolute q.module = false) :
    DdnsWasmRuntime.dispatch_request q =
      .sendErrorResponse q.id "You must provide absolute paths as the module path" ∧
    DdnsWasmRuntime.dispatchEffects (DdnsWasmRuntime.dispatch_request q) =
      [.sendResponse q.id true] := by
  have hq : DdnsWasmRuntime.dispatch_request q =
      .sendErrorResponse q.id "You must provide absolute paths as the module path" := by
    simp [DdnsWasmRuntime.dispatch_request, h]
  exact ⟨hq, by rw [hq]; rfl⟩

/-- Witness for C3: module "relative/path" (bytes of the identifier). -/
theorem c3_reject_relative_module_witness :
    DdnsWasmRuntime.pathIsAbsolute [114, 101, 108] = false ∧
    DdnsWasmRuntime.dispatch_request ⟨9, [114, 101, 108], [1, 2]⟩ =
      .sendErrorResponse 9 "You must provide absolute paths as the module path" := by
  exact ⟨by decide, (c3_reject_relative_module ⟨9, [114, 101, 108], [1, 2]⟩ (by decide)).1⟩

/-- C4.  A run call in which the guest entry point returns status 0 yields Ok
with exactly the bytes then present in the output pipe; a non-zero status
yields an error whose message is those output bytes read as UTF-8 (and when
the output is valid UTF-8, as required, the message bytes are exactly the
output bytes). -/
theorem c4_run_status_contract
    (guest : Nat → DdnsWasmRuntime.Pipes → DdnsWasmRuntime.GuestResult × DdnsWasmRuntime.Pipes)
    (p : DdnsWasmRuntime.Pipes) (data : List Nat) (c : Int)
    (p2 : DdnsWasmRuntime.Pipes)
    (h1 : data.length < 2 ^ 32)
    (h2 : guest data.length { p with stdin := data } = (.status c, p2)) :
    (c = 0 →
      (DdnsWasmRuntime.WasmDdnsStep.run guest p data).result = .ok p2.stdout) ∧
    (c ≠ 0 →
      (DdnsWasmRuntime.WasmDdnsStep.run guest p data).result =
        .err (.guestError (DdnsWasmRuntime.guestErrMsg p2.stdout))) ∧
    (validUtf8 p2.stdout = true →
      DdnsWasmRuntime.guestErrMsg p2.stdout = p2.stdout) := by
  have hrun :
      DdnsWasmRuntime.WasmDdnsStep.run guest p data =
        { result :=
            if c = 0 then .ok p2.stdout
            else .err (.guestError (DdnsWasmRuntime.guestErrMsg p2.stdout)),
          pipes := { p2 with stdout := [] }, lockedStore := true,
          guestCall := some (data.length, { p with stdin := data }) } := by
    unfold DdnsWasmRuntime.WasmDdnsStep.run
    rw [if_pos h1]
    simp only [DdnsWasmRuntime.pipe_write, List.nil_append, h2,
      DdnsWasmRuntime.take_output]
  refine ⟨fun h0 => ?_, fun h0 => ?_, fun hv => ?_⟩
  · rw [hrun]
    simp [h0]
  · rw [hrun]
    simp [h0]
  · unfold DdnsWasmRuntime.guestErrMsg
    rw [hv]
    simp

/-- Witness for C4: a guest that leaves the byte 65 on stdout and fails with
status 1; its error message is exactly that output byte. -/
theorem c4_run_status_contract_witness :
    (DdnsWasmRuntime.WasmDdnsStep.run
        (fun _ q => (.status 1, { q with stdout := [65] }))
        ⟨[3], [9]⟩ []).result =
      .err (.guestError (DdnsWasmRuntime.guestErrMsg [65])) ∧
    DdnsWasmRuntime.guestErrMsg [65] = [65] := by
  have h := c4_run_status_contract
    (fun _ q => (.status 1, { q with stdout := [65] })) ⟨[3], [9]⟩ [] 1
    ⟨[], [65]⟩ (by decide) rfl
  exact ⟨h.2.1 (by decide), h.2.2 (by decide)⟩

/-- C8.  Every run call (whose guest entry point returns) presents the guest
with an input pipe holding exactly the request bytes - whatever residue
earlier calls left is replaced, never appended to - and afterwards takes the
entire contents of the output pipe, leaving that buffer empty. -/
theorem c8_run_pipe_hygiene
    (guest : Nat → DdnsWasmRuntime.Pipes → DdnsWasmRuntime.GuestResult × DdnsWasmRuntime.Pipes)
    (p : DdnsWasmRuntime.Pipes) (data : List Nat) (c : Int)
    (p2 : DdnsWasmRuntime.Pipes)
    (h1 : data.length < 2 ^ 32)
    (h2 : guest data.length { p with stdin := data } = (.status c, p2)) :
    (DdnsWasmRuntime.WasmDdnsStep.run guest p data).guestCall =
      some (data.length, { p with stdin := data }) ∧
    (DdnsWasmRuntime.WasmDdnsStep.run guest p data).pipes.stdout = [] ∧
    DdnsWasmRuntime.pipe_write p.stdin data = data ∧
    DdnsWasmRuntime.take_output p2.stdout = (p2.stdout, []) := by
  have hrun :
      DdnsWasmRuntime.WasmDdnsStep.run guest p data =
        { result :=
            if c = 0 then .ok p2.stdout
            else .err (.guestError (DdnsWasmRuntime.guestErrMsg p2.stdout)),
          pipes := { p2 with stdout := [] }, lockedStore := true,
          guestCall := some (data.length, { p with stdin := data }) } := by
    unfold DdnsWasmRuntime.WasmDdnsStep.run
    rw [if_pos h1]
    simp only [DdnsWasmRuntime.pipe_write, List.nil_append, h2,
      DdnsWasmRuntime.take_output]
  rw [hrun]
  exact ⟨rfl, rfl, rfl, rfl⟩

/-- Witness for C8: stale stdin residue [1, 2] is replaced by the request
bytes [5], and the output buffer is left empty. -/
theorem c8_run_pipe_hygiene_witness :
    (DdnsWasmRuntime.WasmDdnsStep.run
        (fun _ q => (.status 0, q)) ⟨[1, 2], [8]⟩ [5]).guestCall =
      some (1, ⟨[5], [8]⟩) ∧
    (DdnsWasmRuntime.WasmDdnsStep.run
        (fun _ q => (.status 0, q)) ⟨[1, 2], [8]⟩ [5]).pipes.stdout = [] := by
  have h := c8_run_pipe_hygiene (fun _ q => (.status 0, q)) ⟨[1, 2], [8]⟩ [5] 0
    ⟨[5], [8]⟩ (by decide) rfl
  exact ⟨h.1, h.2.1⟩

/-- C10.  An input longer than u32::MAX bytes makes run return the
"data capacity overflow" error before acquiring the store lock, writing the
input pipe, or invoking the guest; and whenever the guest is invoked, its
length argument is exactly the input's length, unwrapped and untruncated. -/
theorem c10_run_capacity_overflow
    (guest : Nat → DdnsWasmRuntime.Pipes → DdnsWasmRuntime.GuestResult × DdnsWasmRuntime.Pipes)
    (p : DdnsWasmRuntime.Pipes) (data : List Nat) :
    (2 ^ 32 ≤ data.length →
      (DdnsWasmRuntime.WasmDdnsStep.run guest p data).result =
        .err .capacityOverflow ∧
      (DdnsWasmRuntime.WasmDdnsStep.run guest p data).lockedStore = false ∧
      (DdnsWasmRuntime.WasmDdnsStep.run guest p data).guestCall = none ∧
      (DdnsWasmRuntime.WasmDdnsStep.run guest p data).pipes = p) ∧
    (∀ len pin,
      (DdnsWasmRuntime.WasmDdnsStep.run guest p data).guestCall = some (len, pin) →
      len = data.length ∧ len < 2 ^ 32) := by
  constructor
  · intro h
    have hlt : ¬ data.length < 2 ^ 32 := by omega
    unfold DdnsWasmRuntime.WasmDdnsStep.run
    rw [if_neg hlt]
    exact ⟨rfl, rfl, rfl, rfl⟩
  · intro len pin hcall
    by_cases hlt : data.length < 2 ^ 32
    · have hcg : (DdnsWasmRuntime.WasmDdnsStep.run guest p data).guestCall =
          some (data.length, { p with stdin := data }) := by
        unfold DdnsWasmRuntime.WasmDdnsStep.run
        rw [if_pos hlt]
        rcases hg : guest data.length
          { p with stdin := DdnsWasmRuntime.pipe_write p.stdin data } with ⟨gr, p2⟩
        simp only [DdnsWasmRuntime.pipe_write, List.nil_append] at hg ⊢
        rw [hg]
        cases gr <;> rfl
      rw [hcg] at hcall
      injection hcall with hpair
      injection hpair with ha hb
      exact ⟨ha.symm, by omega⟩
    · have hcg : (DdnsWasmRuntime.WasmDdnsStep.run guest p data).guestCall = none := by
        unfold DdnsWasmRuntime.WasmDdnsStep.run
        rw [if_neg hlt]
      rw [hcg] at hcall
      exact absurd hcall (by simp)

/-- Witness for C10: a 2^32-byte input is rejected with the capacity
overflow error and no guest call. -/
theorem c10_run_capacity_overflow_witness :
    2 ^ 32 ≤ (List.replicate (2 ^ 32) (0 : Nat)).length ∧
    (DdnsWasmRuntime.WasmDdnsStep.run (fun _ q => (.status 0, q)) ⟨[], []⟩
        (List.replicate (2 ^ 32) (0 : Nat))).result = .err .capacityOverflow := by
  have hlen : 2 ^ 32 ≤ (List.replicate (2 ^ 32) (0 : Nat)).length :=
    Nat.le_of_eq (List.length_replicate _ _).symm
  exact ⟨hlen,
    ((c10_run_capacity_overflow (fun _ q => (.status 0, q)) ⟨[], []⟩
      (List.replicate (2 ^ 32) (0 : Nat))).1 hlen).1⟩

/-! ## C6 lemmas: the write task's shutdown sequence -/

namespace WasmDriver

theorem wtStep_inv (ph : WtPhase) (ctrl : List WtEvent) (i : WtInput)
    (h : wtInv ph ctrl) :
    wtInv (wtStep ph i).1 (ctrl ++ ctrlEvents (wtStep ph i).2) := by
  cases ph <;> cases i <;>
    simp_all [wtStep, wtInv, ctrlEvents, REQUEST_TIMEOUT_MS, CHILD_WAIT_MS,
      DRAIN_POLL_MS] <;>
    split_ifs <;> simp_all <;> omega

theorem wtFold_inv (inputs : List WtInput) (st : WtPhase × List WtEvent)
    (h : wtInv st.1 (ctrlEvents st.2)) :
    wtInv
      (inputs.foldl (fun st i =>
        let next := wtStep st.1 i
        (next.1, st.2 ++ next.2)) st).1
      (ctrlEvents
        (inputs.foldl (fun st i =>
          let next := wtStep st.1 i
          (next.1, st.2 ++ next.2)) st).2) := by
  induction inputs generalizing st with
  | nil => exact h
  | cons i rest ih =>
    simp only [List.foldl_cons]
    apply ih
    simp only [List.filter_append, ctrlEvents]
    have := wtStep_inv st.1 (ctrlEvents st.2) i h
    simpa [ctrlEvents] using this

theorem wtRun_inv (inputs : List WtInput) :
    wtInv (wtRun inputs).1 (ctrlEvents (wtRun inputs).2) := by
  have h := wtFold_inv inputs (.looping, []) (by simp [wtInv, ctrlEvents])
  simpa [wtRun] using h

theorem wtInv_shutdown_take {ph : WtPhase} {ctrl : List WtEvent}
    (h : wtInv ph ctrl) (hmem : WtEvent.sentShutdown ∈ ctrl) :
    ctrl.take 2 = [WtEvent.drainDone, WtEvent.sentShutdown] := by
  cases ph <;> simp only [wtInv] at h
  · subst h
    simp at hmem
  · rcases h with ⟨h1, _⟩
    subst h1
    simp at hmem
  · subst h
    simp at hmem
  · subst h
    rfl
  · rcases h with ⟨h1, _⟩
    subst h1
    rfl
  · rcases h with h1 | h1 <;> subst h1 <;> rfl

end WasmDriver

/-- C6.  After the work queue closes, the write task's externally visible
lifecycle events always follow the program order: drain wait completed (the
wait observing either an empty correlation map or the elapsed 10s request
timeout, 8ms-granularity polls never exceeding that bound), then the
Shutdown Command, then closing the send half, then the bounded (15s) child
wait ending in the child's own exit or a forced kill; in particular the
Shutdown Command is never sent before the bounded drain wait has completed. -/
theorem c6_write_task_shutdown_order (inputs : List WasmDriver.WtInput) :
    WasmDriver.wtInv (WasmDriver.wtRun inputs).1
      (WasmDriver.ctrlEvents (WasmDriver.wtRun inputs).2) ∧
    (WasmDriver.WtEvent.sentShutdown ∈
        WasmDriver.ctrlEvents (WasmDriver.wtRun inputs).2 →
      (WasmDriver.ctrlEvents (WasmDriver.wtRun inputs).2).take 2 =
        [WasmDriver.WtEvent.drainDone, WasmDriver.WtEvent.sentShutdown]) :=
  ⟨WasmDriver.wtRun_inv inputs,
    fun hmem => WasmDriver.wtInv_shutdown_take (WasmDriver.wtRun_inv inputs) hmem⟩

/-- Witness for C6: a run in which the queue closes, the map drains, the
Shutdown is sent, the send half closes and the child exits. -/
theorem c6_write_task_shutdown_order_witness :
    WasmDriver.WtEvent.sentShutdown ∈
      WasmDriver.ctrlEvents (WasmDriver.wtRun
        [.queueClosed, .drainPoll true, .step, .step, .childExit]).2 ∧
    (WasmDriver.ctrlEvents (WasmDriver.wtRun
        [.queueClosed, .drainPoll true, .step, .step, .childExit]).2).take 2 =
      [WasmDriver.WtEvent.drainDone, WasmDriver.WtEvent.sentShutdown] := by
  have hmem : WasmDriver.WtEvent.sentShutdown ∈
      WasmDriver.ctrlEvents (WasmDriver.wtRun
        [.queueClosed, .drainPoll true, .step, .step, .childExit]).2 := by
    decide
  exact ⟨hmem,
    (c6_write_task_shutdown_order
      [.queueClosed, .drainPoll true, .step, .step, .childExit]).2 hmem⟩

/-! ## C7: runtime stdin EOF and process shutdown -/

/-- C7 counterexample.  EOF on the runtime's own inherited stdin (read_line
returning Ok(0)) makes the blocking watcher task finish with Ok(None); the
collector loop's handler performs no action for a None task result, and with
the dispatch loop and writer loop still running (the Command channel still
open) the process has not exited - so stdin EOF is not an unconditional
signal that begins shutdown, contradicting the claim. -/
theorem c7_stdin_watcher_counterexample :
    DdnsWasmRuntime.stdin_watcher [.line 0] = some none ∧
    DdnsWasmRuntime.handle_join none = [] ∧
    DdnsWasmRuntime.runtime_exited ⟨false, false, true⟩ = false :=
  ⟨rfl, rfl, rfl⟩

/-- C7 amended.  EOF or error on the runtime's inherited stdin terminates the
stdin watcher task (exactly then), with a result that carries no send half
and triggers no collector action; the process exits only when the dispatch
loop and the writer loop have also finished, so the watcher's completion is a
necessary but not sufficient condition for process exit. -/
theorem c7_stdin_watcher_amended (evs : List DdnsWasmRuntime.StdinRead)
    (t : DdnsWasmRuntime.RuntimeTasks) :
    (DdnsWasmRuntime.stdin_watcher evs = some none ↔
      evs.any DdnsWasmRuntime.stdinTerminator = true) ∧
    DdnsWasmRuntime.handle_join none = [] ∧
    DdnsWasmRuntime.handle_join (some ()) = [.shutdownSendHalf] ∧
    (DdnsWasmRuntime.runtime_exited t = true ↔
      t.dispatchDone = true ∧ t.writerDone = true ∧ t.stdinWatcherDone = true) := by
  refine ⟨?_, rfl, rfl, ?_⟩
  · induction evs with
    | nil => simp [DdnsWasmRuntime.stdin_watcher]
    | cons e rest ih =>
      cases e with
      | ioFailure => simp [DdnsWasmRuntime.stdin_watcher, DdnsWasmRuntime.stdinTerminator]
      | line n =>
        cases n with
        | zero => simp [DdnsWasmRuntime.stdin_watcher, DdnsWasmRuntime.stdinTerminator]
        | succ m =>
          simp [DdnsWasmRuntime.stdin_watcher, DdnsWasmRuntime.stdinTerminator, ih]
  · simp [DdnsWasmRuntime.runtime_exited, Bool.and_eq_true, and_assoc]

/-! ## C2: stream-closed versus protocol error in the frame decoders -/

/-- C2 counterexample.  A stream holding a single byte - one readable byte, a
partial 8-byte length prefix, not a clean zero-byte EOF - makes both decoders
return the distinguished stream-closed result (Ok(None)) rather than a
protocol error: tokio read_u64_le reports UnexpectedEof whether zero or up to
seven prefix bytes were readable, and both decoders map that error kind to
Ok(None). -/
theorem c2_counterexample :
    WasmDriver.read_response [0] = .ok (none, []) ∧
    ([0] : List Nat) ≠ [] ∧
    DdnsWasmRuntime.get_request [0] = .ok (none, []) :=
  ⟨rfl, by simp, rfl⟩

/-- C2 amended.  The decoders return the stream-closed result exactly when
end-of-stream falls inside the 8-byte length prefix - zero or a partial
prefix of readable bytes (get_request additionally folds a decoded Shutdown
command into the same None result); truncation of the payload after a
complete length prefix is a protocol error, never stream-closed. -/
theorem c2_stream_closed_amended (s : List Nat) :
    (isStreamClosed (WasmDriver.read_response s) = true ↔ s.length < 8) ∧
    (8 ≤ s.length → s.length - 8 < fromLeBytes (s.take 8) →
      WasmDriver.read_response s = .error .invalidLength) ∧
    (isStreamClosed (DdnsWasmRuntime.get_request s) = true ↔
      (s.length < 8 ∨
        (fromLeBytes (s.take 8) ≤ s.length - 8 ∧
          decodesToShutdown ((s.drop 8).take (fromLeBytes (s.take 8))) = true))) ∧
    (8 ≤ s.length → s.length - 8 < fromLeBytes (s.take 8) →
      DdnsWasmRuntime.get_request s = .error .eofPayload) := by
  have hdroplen : (s.drop 8).length = s.length - 8 := List.length_drop 8 s
  refine ⟨?_, ?_, ?_, ?_⟩
  · by_cases h : s.length < 8
    · simp [WasmDriver.read_response, h, isStreamClosed]
    · simp only [WasmDriver.read_response, if_neg h]
      constructor
      · intro hc
        exfalso
        revert hc
        split_ifs with h2
        · rcases hdec : decodeResponsePayload ((s.drop 8).take (fromLeBytes (s.take 8))) with e | pr
          · simp [hdec, isStreamClosed]
          · simp [hdec, isStreamClosed]
        · simp [isStreamClosed]
      · intro hc
        exact absurd hc h
  · intro h8 hlt
    have hne : ¬ s.length < 8 := by omega
    have h2 : ((s.drop 8).take (fromLeBytes (s.take 8))).length ≠ fromLeBytes (s.take 8) := by
      rw [List.length_take, hdroplen]
      omega
    simp only [WasmDriver.read_response, if_neg hne]
    rw [if_neg h2]
  · by_cases h : s.length < 8
    · simp [DdnsWasmRuntime.get_request, h, isStreamClosed]
    · simp only [DdnsWasmRuntime.get_request, if_neg h]
      rw [hdroplen]
      by_cases h2 : fromLeBytes (s.take 8) ≤ s.length - 8
      · simp only [if_pos h2]
        rcases hdec : decodeCommandPayload ((s.drop 8).take (fromLeBytes (s.take 8))) with e | pr
        · simp [hdec, isStreamClosed, decodesToShutdown]
          omega
        · rcases pr with ⟨cmd, rest2⟩
          cases cmd with
          | shutdown =>
            simp [hdec, isStreamClosed, decodesToShutdown, h2]
          | request q =>
            simp [hdec, isStreamClosed, decodesToShutdown]
            omega
      · simp [if_neg h2, isStreamClosed, h2]
        omega
  · intro h8 hlt
    have hne : ¬ s.length < 8 := by omega
    simp only [DdnsWasmRuntime.get_request, if_neg hne]
    rw [hdroplen]
    have h2 : ¬ fromLeBytes (s.take 8) ≤ s.length - 8 := by omega
    simp [h2]

/-- Witness for the amended C2 at concrete streams: an 8-byte zero length
prefix with nothing after it is a decoded empty... rather: a complete prefix
announcing 5 payload bytes with only 2 readable is a protocol error on both
decoders, and a 3-byte stream is stream-closed. -/
theorem c2_stream_closed_amended_witness :
    isStreamClosed (WasmDriver.read_response [1, 2, 3]) = true ∧
    WasmDriver.read_response [5, 0, 0, 0, 0, 0, 0, 0, 9, 9] =
      .error .invalidLength ∧
    DdnsWasmRuntime.get_request [5, 0, 0, 0, 0, 0, 0, 0, 9, 9] =
      .error .eofPayload := by
  refine ⟨?_, ?_, ?_⟩
  · exact (c2_stream_closed_amended [1, 2, 3]).1.mpr (by decide)
  · exact (c2_stream_closed_amended [5, 0, 0, 0, 0, 0, 0, 0, 9, 9]).2.1
      (by decide) (by decide)
  · exact (c2_stream_closed_amended [5, 0, 0, 0, 0, 0, 0, 0, 9, 9]).2.2.2
      (by decide) (by decide)

/-! ## C5 lemmas: bincode round trips -/

theorem take_append_of_length {α : Type} {l : List α} (n : Nat)
    (h : l.length = n) (t : List α) : (l ++ t).take n = l := by
  subst h
  exact take_len_append l t

theorem drop_append_of_length {α : Type} {l : List α} (n : Nat)
    (h : l.length = n) (t : List α) : (l ++ t).drop n = t := by
  subst h
  exact drop_len_append l t

theorem pow256_8 : (256 : Nat) ^ 8 = 2 ^ 64 := by norm_num

theorem pow256_4 : (256 : Nat) ^ 4 = 2 ^ 32 := by norm_num

theorem fromLeBytes_u64le {n : Nat} (h : n < 2 ^ 64) : fromLeBytes (u64le n) = n :=
  fromLeBytes_leBytes_of_lt (by rw [pow256_8]; exact h)

theorem decodeU64_encode {n : Nat} (h : n < 2 ^ 64) (rest : List Nat) :
    decodeU64 (u64le n ++ rest) = .ok (n, rest) := by
  have hlen : (u64le n).length = 8 := length_leBytes 8 n
  have h8 : 8 ≤ (u64le n ++ rest).length := by
    rw [List.length_append, hlen]
    omega
  have hn : n < 256 ^ 8 := by
    rw [pow256_8]
    exact h
  simp only [decodeU64, if_pos h8]
  rw [take_append_of_length 8 hlen, drop_append_of_length 8 hlen]
  simp only [u64le]
  rw [fromLeBytes_leBytes_of_lt hn]

theorem decodeU32_encode {n : Nat} (h : n < 2 ^ 32) (rest : List Nat) :
    decodeU32 (u32le n ++ rest) = .ok (n, rest) := by
  have hlen : (u32le n).length = 4 := length_leBytes 4 n
  have h4 : 4 ≤ (u32le n ++ rest).length := by
    rw [List.length_append, hlen]
    omega
  have hn : n < 256 ^ 4 := by
    rw [pow256_4]
    exact h
  simp only [decodeU32, if_pos h4]
  rw [take_append_of_length 4 hlen, drop_append_of_length 4 hlen]
  simp only [u32le]
  rw [fromLeBytes_leBytes_of_lt hn]

theorem decodeBytes_encode {b : List Nat} (h : b.length < 2 ^ 64)
    (rest : List Nat) : decodeBytes (encBytes b ++ rest) = .ok (b, rest) := by
  have hassoc : encBytes b ++ rest = u64le b.length ++ (b ++ rest) := by
    simp [encBytes, List.append_assoc]
  rw [hassoc]
  simp only [decodeBytes, decodeU64_encode h]
  have hle : b.length ≤ (b ++ rest).length := by
    rw [List.length_append]
    omega
  rw [if_pos hle, take_append_of_length b.length rfl, drop_append_of_length b.length rfl]

theorem decodeStr_encode {b : List Nat} (h : b.length < 2 ^ 64)
    (hv : validUtf8 b = true) (rest : List Nat) :
    decodeStr (encBytes b ++ rest) = .ok (b, rest) := by
  simp only [decodeStr, decodeBytes_encode h, hv, if_pos]

theorem decodeCommandPayload_shutdown (rest : List Nat) :
    decodeCommandPayload (encodeCommandPayload .shutdown ++ rest) =
      .ok (.shutdown, rest) := by
  have h0 : (0 : Nat) < 2 ^ 32 := by norm_num
  simp only [encodeCommandPayload, decodeCommandPayload, decodeU32_encode h0]
  simp

theorem decodeCommandPayload_request (q : WireRequest) (hq : q.wf)
    (rest : List Nat) :
    decodeCommandPayload (encodeCommandPayload (.request q) ++ rest) =
      .ok (.request q, rest) := by
  obtain ⟨hid, hutf, hm, hd⟩ := hq
  have h32 : (2 : Nat) ^ 32 = 4294967296 := by norm_num
  have h64 : (2 : Nat) ^ 64 = 18446744073709551616 := by norm_num
  have hm64 : q.module.length < 2 ^ 64 := by omega
  have hd64 : q.data.length < 2 ^ 64 := by omega
  have h1 : (1 : Nat) < 2 ^ 32 := by norm_num
  have hassoc : encodeCommandPayload (.request q) ++ rest =
      u32le 1 ++ (u64le q.id ++ (encBytes q.module ++ (encBytes q.data ++ rest))) := by
    simp [encodeCommandPayload, List.append_assoc]
  rw [hassoc]
  simp only [decodeCommandPayload, decodeU32_encode h1, decodeU64_encode hid,
    decodeStr_encode hm64 hutf, decodeBytes_encode hd64]
  simp

theorem decodeResponsePayload_encode (r : WireResponse) (hr : r.wf)
    (rest : List Nat) :
    decodeResponsePayload (encodeResponsePayload r ++ rest) = .ok (r, rest) := by
  obtain ⟨hid, hres⟩ := hr
  have h32 : (2 : Nat) ^ 32 = 4294967296 := by norm_num
  have h64 : (2 : Nat) ^ 64 = 18446744073709551616 := by norm_num
  have h0 : (0 : Nat) < 2 ^ 32 := by norm_num
  have h1 : (1 : Nat) < 2 ^ 32 := by norm_num
  rcases r with ⟨id, res⟩
  cases res with
  | ok v =>
    have hv64 : v.length < 2 ^ 64 := by
      simp only at hres
      omega
    have hassoc : encodeResponsePayload ⟨id, .ok v⟩ ++ rest =
        u64le id ++ (u32le 0 ++ (encBytes v ++ rest)) := by
      simp [encodeResponsePayload, List.append_assoc]
    rw [hassoc]
    simp only [decodeResponsePayload, decodeU64_encode hid, decodeU32_encode h0,
      decodeBytes_encode hv64]
    simp
  | err e =>
    simp only at hres
    have he64 : e.length < 2 ^ 64 := by omega
    have hassoc : encodeResponsePayload ⟨id, .err e⟩ ++ rest =
        u64le id ++ (u32le 1 ++ (encBytes e ++ rest)) := by
      simp [encodeResponsePayload, List.append_assoc]
    rw [hassoc]
    simp only [decodeResponsePayload, decodeU64_encode hid, decodeU32_encode h1,
      decodeStr_encode he64 hres.1]
    simp

theorem sizeCommand_eq (c : WireCommand) :
    sizeCommand c = (encodeCommandPayload c).length := by
  cases c
  · simp [sizeCommand, encodeCommandPayload, u32le, length_leBytes]
  · simp [sizeCommand, encodeCommandPayload, encBytes, u32le, u64le,
      length_leBytes, List.length_append]
    omega

theorem sizeResponse_eq (r : WireResponse) :
    sizeResponse r = (encodeResponsePayload r).length := by
  rcases r with ⟨id, res⟩
  cases res <;>
    simp [sizeResponse, encodeResponsePayload, encBytes, u32le, u64le,
      length_leBytes, List.length_append]

theorem read_response_frame (r : WireResponse) (hr : r.wf) (extra : List Nat) :
    WasmDriver.read_response (DdnsWasmRuntime.write_command r ++ extra) =
      .ok (some r, extra) := by
  have hplen : (encodeResponsePayload r).length = sizeResponse r :=
    (sizeResponse_eq r).symm
  have h32 : (2 : Nat) ^ 32 = 4294967296 := by norm_num
  have h64 : (2 : Nat) ^ 64 = 18446744073709551616 := by norm_num
  have hL64 : sizeResponse r < 2 ^ 64 := by
    rcases r with ⟨id, res⟩
    rcases hr with ⟨hid, hres⟩
    cases res <;> simp only [sizeResponse] <;> simp only at hres <;> omega
  have hstream : DdnsWasmRuntime.write_command r ++ extra =
      u64le (sizeResponse r) ++ (encodeResponsePayload r ++ extra) := by
    simp [DdnsWasmRuntime.write_command, List.append_assoc]
  rw [hstream]
  have hlen8 : (u64le (sizeResponse r)).length = 8 := length_leBytes 8 _
  have hnot : ¬ (u64le (sizeResponse r) ++ (encodeResponsePayload r ++ extra)).length < 8 := by
    rw [List.length_append, hlen8]
    omega
  simp only [WasmDriver.read_response]
  rw [if_neg hnot]
  rw [take_append_of_length 8 hlen8, drop_append_of_length 8 hlen8,
    fromLeBytes_u64le hL64]
  rw [take_append_of_length (sizeResponse r) hplen,
    drop_append_of_length (sizeResponse r) hplen]
  rw [if_pos hplen]
  have hdec := decodeResponsePayload_encode r ⟨by
      rcases hr with ⟨hid, _⟩
      exact hid, by
      rcases hr with ⟨_, hres⟩
      exact hres⟩ []
  rw [List.append_nil] at hdec
  simp [hdec]

theorem get_request_frame_request (q : WireRequest) (hq : q.wf) (extra : List Nat) :
    DdnsWasmRuntime.get_request (WasmDriver.write_command (.request q) ++ extra) =
      .ok (some q, extra) := by
  have hplen : (encodeCommandPayload (.request q)).length = sizeCommand (.request q) :=
    (sizeCommand_eq _).symm
  have h32 : (2 : Nat) ^ 32 = 4294967296 := by norm_num
  have h64 : (2 : Nat) ^ 64 = 18446744073709551616 := by norm_num
  have hL64 : sizeCommand (.request q) < 2 ^ 64 := by
    rcases hq with ⟨hid, hutf, hm, hd⟩
    simp only [sizeCommand]
    omega
  have hstream : WasmDriver.write_command (.request q) ++ extra =
      u64le (sizeCommand (.request q)) ++ (encodeCommandPayload (.request q) ++ extra) := by
    simp [WasmDriver.write_command, List.append_assoc]
  rw [hstream]
  have hlen8 : (u64le (sizeCommand (.request q))).length = 8 := length_leBytes 8 _
  have hnot : ¬ (u64le (sizeCommand (.request q)) ++
      (encodeCommandPayload (.request q) ++ extra)).length < 8 := by
    rw [List.length_append, hlen8]
    omega
  simp only [DdnsWasmRuntime.get_request]
  rw [if_neg hnot]
  rw [take_append_of_length 8 hlen8, drop_append_of_length 8 hlen8,
    fromLeBytes_u64le hL64]
  have hle : sizeCommand (.request q) ≤ (encodeCommandPayload (.request q) ++ extra).length := by
    rw [List.length_append, hplen.symm]
    omega
  rw [if_pos hle]
  rw [take_append_of_length (sizeCommand (.request q)) hplen,
    drop_append_of_length (sizeCommand (.request q)) hplen]
  have hdec := decodeCommandPayload_request q hq []
  rw [List.append_nil] at hdec
  simp [hdec]

theorem get_request_frame_shutdown (extra : List Nat) :
    DdnsWasmRuntime.get_request (WasmDriver.write_command .shutdown ++ extra) =
      .ok (none, extra) := by
  have hplen : (encodeCommandPayload .shutdown).length = sizeCommand .shutdown :=
    (sizeCommand_eq _).symm
  have hL64 : sizeCommand .shutdown < 2 ^ 64 := by
    simp [sizeCommand]
  have hstream : WasmDriver.write_command .shutdown ++ extra =
      u64le (sizeCommand .shutdown) ++ (encodeCommandPayload .shutdown ++ extra) := by
    simp [WasmDriver.write_command, List.append_assoc]
  rw [hstream]
  have hlen8 : (u64le (sizeCommand .shutdown)).length = 8 := length_leBytes 8 _
  have hnot : ¬ (u64le (sizeCommand .shutdown) ++
      (encodeCommandPayload .shutdown ++ extra)).length < 8 := by
    rw [List.length_append, hlen8]
    omega
  simp only [DdnsWasmRuntime.get_request]
  rw [if_neg hnot]
  rw [take_append_of_length 8 hlen8, drop_append_of_length 8 hlen8,
    fromLeBytes_u64le hL64]
  have hle : sizeCommand .shutdown ≤ (encodeCommandPayload .shutdown ++ extra).length := by
    rw [List.length_append, hplen.symm]
    omega
  rw [if_pos hle]
  rw [take_append_of_length (sizeCommand .shutdown) hplen,
    drop_append_of_length (sizeCommand .shutdown) hplen]
  have hdec := decodeCommandPayload_shutdown []
  rw [List.append_nil] at hdec
  simp [hdec]

/-- C5.  Both encoders emit an 8-byte little-endian length n followed by
exactly n bytes of the fixed-width little-endian bincode payload (n being the
payload's byte count, computed by the SizeWriter pass), and the dual decoder
recovers exactly the encoded message, leaving the rest of the stream intact
(get_request surfaces a decoded Shutdown as its None result). -/
theorem c5_codec_roundtrip (c : WireCommand) (q : WireRequest)
    (r : WireResponse) (extra : List Nat) :
    WasmDriver.write_command c =
      u64le (encodeCommandPayload c).length ++ encodeCommandPayload c ∧
    DdnsWasmRuntime.write_command r =
      u64le (encodeResponsePayload r).length ++ encodeResponsePayload r ∧
    (r.wf →
      WasmDriver.read_response (DdnsWasmRuntime.write_command r ++ extra) =
        .ok (some r, extra)) ∧
    (q.wf →
      DdnsWasmRuntime.get_request (WasmDriver.write_command (.request q) ++ extra) =
        .ok (some q, extra)) ∧
    DdnsWasmRuntime.get_request (WasmDriver.write_command .shutdown ++ extra) =
      .ok (none, extra) := by
  refine ⟨?_, ?_, fun hr => read_response_frame r hr extra,
    fun hq => get_request_frame_request q hq extra, get_request_frame_shutdown extra⟩
  · rw [WasmDriver.write_command, sizeCommand_eq]
  · rw [DdnsWasmRuntime.write_command, sizeResponse_eq]

/-- Witness for C5 at concrete messages: a Response carrying Ok([1, 2]) and a
Request for module "/" with payload [9], each followed by trailing stream
bytes [7] that the decoders leave unconsumed. -/
theorem c5_codec_roundtrip_witness :
    WasmDriver.read_response (DdnsWasmRuntime.write_command ⟨3, .ok [1, 2]⟩ ++ [7]) =
      .ok (some ⟨3, .ok [1, 2]⟩, [7]) ∧
    DdnsWasmRuntime.get_request
        (WasmDriver.write_command (.request ⟨1, [47], [9]⟩) ++ [7]) =
      .ok (some ⟨1, [47], [9]⟩, [7]) :=
  ⟨(c5_codec_roundtrip .shutdown ⟨1, [47], [9]⟩ ⟨3, .ok [1, 2]⟩ [7]).2.2.1
      ⟨by decide, by decide⟩,
    (c5_codec_roundtrip .shutdown ⟨1, [47], [9]⟩ ⟨3, .ok [1, 2]⟩ [7]).2.2.2.1
      ⟨by decide, by decide, by decide, by decide⟩⟩

/-! ## C9 lemmas: the module cache -/

/-- C9 counterexample.  Two concurrent first-time callers for the same module
key: caller 0 inserts the cell and starts the only running initialization;
caller 1 finds the same cell and waits on it; caller 0's WasmDdnsStep::new
fails, so (per tokio OnceCell::get_or_try_init) the error goes to caller 0
alone and the cell reverts to empty; waiting caller 1 then starts a second
initialization, which succeeds.  Two initializations ran (the initialization
counter is 2, not 1), and the error was not shared with the concurrent
caller - contradicting the claim. -/
theorem c9_single_init_counterexample :
    (DdnsWasmRuntime.cacheRun (DdnsWasmRuntime.cacheInit [[107], [107]])
        [(0, true), (0, true), (1, true), (1, true), (0, false), (1, true),
          (1, true)]).initCount = 2 ∧
    (DdnsWasmRuntime.cacheRun (DdnsWasmRuntime.cacheInit [[107], [107]])
        [(0, true), (0, true), (1, true), (1, true), (0, false), (1, true),
          (1, true)]).callers =
      [.done [107] (.fail 0), .done [107] (.ok 1)] := by
  constructor
  · rfl
  · rfl

namespace DdnsWasmRuntime

theorem countP_set_eq {α : Type} (l : List α) (i : Nat) (a b : α) (p : α → Bool)
    (h : l[i]? = some b) :
    (l.set i a).countP p + (if p b then 1 else 0) =
      l.countP p + (if p a then 1 else 0) := by
  induction l generalizing i with
  | nil => simp at h
  | cons x t ih =>
    cases i with
    | zero =>
      simp only [List.getElem?_cons_zero, Option.some.injEq] at h
      subst h
      simp only [List.set_cons_zero, List.countP_cons]
      omega
    | succ n =>
      simp only [List.getElem?_cons_succ] at h
      have ih2 := ih n h
      simp only [List.set_cons_succ, List.countP_cons]
      omega

theorem countP_set_same {α : Type} (l : List α) (i : Nat) (a b : α) (p : α → Bool)
    (h : l[i]? = some b) (hb : p b = false) (ha : p a = false) :
    (l.set i a).countP p = l.countP p := by
  have h2 := countP_set_eq l i a b p h
  rw [hb, ha] at h2
  omega

theorem countP_set_incr {α : Type} (l : List α) (i : Nat) (a b : α) (p : α → Bool)
    (h : l[i]? = some b) (hb : p b = false) (ha : p a = true) :
    (l.set i a).countP p = l.countP p + 1 := by
  have h2 := countP_set_eq l i a b p h
  rw [hb, ha] at h2
  simp at h2
  omega

theorem countP_set_decr {α : Type} (l : List α) (i : Nat) (a b : α) (p : α → Bool)
    (h : l[i]? = some b) (hb : p b = true) (ha : p a = false) :
    (l.set i a).countP p + 1 = l.countP p := by
  have h2 := countP_set_eq l i a b p h
  rw [hb, ha] at h2
  simp at h2
  omega

theorem cacheGet_append (cache : List (ModKey × Nat)) (ent : ModKey × Nat)
    (k : ModKey) :
    cacheGet (cache ++ [ent]) k = (cacheGet cache k).or (cacheGet [ent] k) := by
  simp only [cacheGet, List.find?_append]
  rcases hf : cache.find? (fun e => e.1 == k) with _ | p <;> rw [hf] <;> simp

theorem cacheGet_append_of_some {cache : List (ModKey × Nat)} {k : ModKey}
    {c : Nat} (ent : ModKey × Nat) (h : cacheGet cache k = some c) :
    cacheGet (cache ++ [ent]) k = some c := by
  rw [cacheGet_append, h]
  rfl

theorem cacheGet_append_self {cache : List (ModKey × Nat)} {k : ModKey}
    (c : Nat) (h : cacheGet cache k = none) :
    cacheGet (cache ++ [(k, c)]) k = some c := by
  rw [cacheGet_append, h]
  simp [cacheGet, List.find?]

theorem ne_of_cacheGet_none {cache : List (ModKey × Nat)} {k : ModKey}
    (h : cacheGet cache k = none) : ∀ x ∈ cache, x.1 ≠ k := by
  intro x hx
  simp only [cacheGet, Option.map_eq_none'] at h
  rw [List.find?_eq_none] at h
  have h2 := h x hx
  simpa using h2

theorem cacheGet_mem {cache : List (ModKey × Nat)} {k : ModKey} {c : Nat}
    (h : cacheGet cache k = some c) : ∃ p, p ∈ cache ∧ p.2 = c := by
  simp only [cacheGet, Option.map_eq_some'] at h
  obtain ⟨p, hp, hpc⟩ := h
  exact ⟨p, List.mem_of_find?_eq_some hp, hpc⟩

end DdnsWasmRuntime

namespace DdnsWasmRuntime

theorem lt_length_of_callers {st : CacheState} {i : Nat} {cs : CallerSt}
    (hci : st.callers[i]? = some cs) : i < st.callers.length := by
  rcases List.getElem?_eq_some_iff.mp hci with ⟨h, _⟩
  exact h

theorem cacheAttempt_inv {st : CacheState} (hinv : cacheInv st) {i : Nat}
    {cs : CallerSt} {k : ModKey} {c : Nat}
    (hci : st.callers[i]? = some cs)
    (hcell : callerCell cs = some (k, c))
    (hni : ∀ c', isRunningInitOn c' cs = false) :
    cacheInv (cacheAttempt st i k c) ∧
    (∀ (c0 : Nat) (info0 : CellInfo), st.cells[c0]? = some info0 →
      isReadyInfo info0 = true →
      (cacheAttempt st i k c).cells[c0]? = some info0) := by
  obtain ⟨h1, h2, h3, h4, h5⟩ := hinv
  have hkc : cacheGet st.cache k = some c := h3 i cs k c hci hcell
  have hclen : c < st.cells.length := by
    obtain ⟨p, hp, hpc⟩ := cacheGet_mem hkc
    have h6 := h2 p hp
    omega
  have hilen : i < st.callers.length := lt_length_of_callers hci
  rcases hc0 : st.cells[c]? with _ | info
  · rw [List.getElem?_eq_getElem hclen] at hc0
    exact absurd hc0 (by simp)
  rcases hst : info.st with _ | _ | v
  · -- the cell is empty: take the permit and start an initialization
    have heq : cacheAttempt st i k c =
        { st with
          cells := st.cells.set c ⟨.running, info.inits + 1⟩,
          callers := st.callers.set i (.runningInit k c st.initCount),
          initCount := st.initCount + 1 } := by
      simp [cacheAttempt, hc0, hst]
    rw [heq]
    refine ⟨⟨h1, ?_, ?_, ?_, ?_⟩, ?_⟩
    · intro p hp
      simpa [List.length_set] using h2 p hp
    · intro j cs' k' c' hj hcell'
      by_cases hji : j = i
      · subst hji
        rw [List.getElem?_set_self hilen] at hj
        injection hj with hj2
        subst hj2
        simp only [callerCell, Option.some.injEq, Prod.mk.injEq] at hcell'
        obtain ⟨hk', hc'⟩ := hcell'
        subst hk'
        subst hc'
        exact hkc
      · rw [List.getElem?_set_ne (Ne.symm hji)] at hj
        exact h3 j cs' k' c' hj hcell'
    · intro c'
      simp only [callersInitializingOn]
      by_cases hcc : c' = c
      · subst hcc
        have hb : isRunningInitOn c' cs = false := hni c'
        have ha : isRunningInitOn c'
            (CallerSt.runningInit k c' st.initCount) = true := by
          simp [isRunningInitOn]
        rw [countP_set_incr st.callers i _ cs _ hci hb ha]
        have hold := h4 c'
        simp only [callersInitializingOn, hc0, hst] at hold
        simp only [reduceCtorEq, if_false] at hold
        rw [List.getElem?_set_self hclen]
        simp [hold]
      · have hb : isRunningInitOn c' cs = false := hni c'
        have ha : isRunningInitOn c'
            (CallerSt.runningInit k c st.initCount) = false := by
          simp only [isRunningInitOn, beq_eq_false_iff_ne, ne_eq]
          exact fun h => hcc h.symm
        rw [countP_set_same st.callers i _ cs _ hci hb ha]
        have hold := h4 c'
        simp only [callersInitializingOn] at hold
        rw [List.getElem?_set_ne (fun h => hcc h.symm)]
        exact hold
    · intro j k' v hj
      by_cases hji : j = i
      · subst hji
        rw [List.getElem?_set_self hilen] at hj
        exact absurd hj (by simp)
      · rw [List.getElem?_set_ne (Ne.symm hji)] at hj
        obtain ⟨c0, info0, hg, hcell0, hready⟩ := h5 j k' v hj
        refine ⟨c0, info0, hg, ?_, hready⟩
        have hc0c : c0 ≠ c := by
          intro hcc
          subst hcc
          rw [hc0] at hcell0
          injection hcell0 with h7
          rw [← h7, hst] at hready
          exact absurd hready (by simp)
        rw [List.getElem?_set_ne (Ne.symm hc0c)]
        exact hcell0
    · intro c0 info0 hcell0 hready
      have hc0c : c0 ≠ c := by
        intro hcc
        subst hcc
        rw [hc0] at hcell0
        injection hcell0 with h7
        rw [← h7] at hready
        simp [isReadyInfo, hst] at hready
      show (st.cells.set c ⟨.running, info.inits + 1⟩)[c0]? = some info0
      rw [List.getElem?_set_ne (Ne.symm hc0c)]
      exact hcell0
  · -- the cell is running: the caller goes to the wait queue
    have heq : cacheAttempt st i k c =
        { st with callers := st.callers.set i (.waitingCell k c) } := by
      simp [cacheAttempt, hc0, hst]
    rw [heq]
    refine ⟨⟨h1, h2, ?_, ?_, ?_⟩, ?_⟩
    · intro j cs' k' c' hj hcell'
      by_cases hji : j = i
      · subst hji
        rw [List.getElem?_set_self hilen] at hj
        injection hj with hj2
        subst hj2
        simp only [callerCell, Option.some.injEq, Prod.mk.injEq] at hcell'
        obtain ⟨hk', hc'⟩ := hcell'
        subst hk'
        subst hc'
        exact hkc
      · rw [List.getElem?_set_ne (Ne.symm hji)] at hj
        exact h3 j cs' k' c' hj hcell'
    · intro c'
      simp only [callersInitializingOn]
      have hb : isRunningInitOn c' cs = false := hni c'
      have ha : isRunningInitOn c' (CallerSt.waitingCell k c) = false := rfl
      rw [countP_set_same st.callers i _ cs _ hci hb ha]
      exact h4 c'
    · intro j k' v hj
      by_cases hji : j = i
      · subst hji
        rw [List.getElem?_set_self hilen] at hj
        exact absurd hj (by simp)
      · rw [List.getElem?_set_ne (Ne.symm hji)] at hj
        exact h5 j k' v hj
    · intro c0 info0 hcell0 hready
      exact hcell0
  · -- the cell is ready: the caller returns the shared value
    have heq : cacheAttempt st i k c =
        { st with callers := st.callers.set i (.done k (.ok v)) } := by
      simp [cacheAttempt, hc0, hst]
    rw [heq]
    refine ⟨⟨h1, h2, ?_, ?_, ?_⟩, ?_⟩
    · intro j cs' k' c' hj hcell'
      by_cases hji : j = i
      · subst hji
        rw [List.getElem?_set_self hilen] at hj
        injection hj with hj2
        subst hj2
        simp [callerCell] at hcell'
      · rw [List.getElem?_set_ne (Ne.symm hji)] at hj
        exact h3 j cs' k' c' hj hcell'
    · intro c'
      simp only [callersInitializingOn]
      have hb : isRunningInitOn c' cs = false := hni c'
      have ha : isRunningInitOn c' (CallerSt.done k (.ok v)) = false := rfl
      rw [countP_set_same st.callers i _ cs _ hci hb ha]
      exact h4 c'
    · intro j k' v' hj
      by_cases hji : j = i
      · subst hji
        rw [List.getElem?_set_self hilen] at hj
        injection hj with hj2
        injection hj2 with hk2 hv2
        injection hv2 with hv3
        subst hk2
        subst hv3
        exact ⟨c, info, hkc, hc0, hst⟩
      · rw [List.getElem?_set_ne (Ne.symm hji)] at hj
        exact h5 j k' v' hj
    · intro c0 info0 hcell0 hready
      exact hcell0

end DdnsWasmRuntime

namespace DdnsWasmRuntime

theorem cacheStep_inv {st : CacheState} (hinv : cacheInv st) (i : Nat)
    (o : Bool) :
    cacheInv (cacheStep st i o) ∧
    (∀ (c0 : Nat) (info0 : CellInfo), st.cells[c0]? = some info0 →
      isReadyInfo info0 = true →
      (cacheStep st i o).cells[c0]? = some info0) := by
  rcases hci : st.callers[i]? with _ | cs
  · have heq : cacheStep st i o = st := by simp [cacheStep, hci]
    rw [heq]
    exact ⟨hinv, fun _ _ h _ => h⟩
  obtain ⟨h1, h2, h3, h4, h5⟩ := hinv
  have hinv' : cacheInv st := ⟨h1, h2, h3, h4, h5⟩
  have hilen : i < st.callers.length := lt_length_of_callers hci
  cases cs with
  | start k =>
    rcases hgk : cacheGet st.cache k with _ | c
    · -- unseen key: insert a fresh cell and bind the caller to it
      have heq : cacheStep st i o =
          { st with
            cache := st.cache ++ [(k, st.cells.length)],
            cells := st.cells ++ [⟨.empty, 0⟩],
            callers := st.callers.set i (.atCell k st.cells.length) } := by
        simp [cacheStep, hci, hgk]
      rw [heq]
      refine ⟨⟨?_, ?_, ?_, ?_, ?_⟩, ?_⟩
      · rw [List.pairwise_append]
        refine ⟨h1, by simp, ?_⟩
        intro a ha b hb
        simp only [List.mem_singleton] at hb
        subst hb
        exact ne_of_cacheGet_none hgk a ha
      · intro p hp
        rw [List.mem_append] at hp
        rw [List.length_append, List.length_singleton]
        rcases hp with hp | hp
        · have h6 := h2 p hp
          omega
        · simp only [List.mem_singleton] at hp
          subst hp
          omega
      · intro j cs' k' c' hj hcell'
        by_cases hji : j = i
        · subst hji
          rw [List.getElem?_set_self hilen] at hj
          injection hj with hj2
          subst hj2
          simp only [callerCell, Option.some.injEq, Prod.mk.injEq] at hcell'
          obtain ⟨hk', hc'⟩ := hcell'
          subst hk'
          subst hc'
          exact cacheGet_append_self _ hgk
        · rw [List.getElem?_set_ne (Ne.symm hji)] at hj
          exact cacheGet_append_of_some _ (h3 j cs' k' c' hj hcell')
      · intro c'
        simp only [callersInitializingOn]
        have hb : isRunningInitOn c' (CallerSt.start k) = false := rfl
        have ha : isRunningInitOn c' (CallerSt.atCell k st.cells.length) = false := rfl
        rw [countP_set_same st.callers i _ _ _ hci hb ha]
        have hold := h4 c'
        simp only [callersInitializingOn] at hold
        rcases Nat.lt_trichotomy c' st.cells.length with h | h | h
        · rw [List.getElem?_append_left h]
          exact hold
        · subst h
          rw [List.getElem?_concat_length]
          rw [List.getElem?_eq_none (Nat.le_refl _)] at hold
          simpa using hold
        · rw [List.getElem?_eq_none
            (by rw [List.length_append, List.length_singleton]; omega)]
          rw [List.getElem?_eq_none (by omega)] at hold
          exact hold
      · intro j k' v hj
        by_cases hji : j = i
        · subst hji
          rw [List.getElem?_set_self hilen] at hj
          exact absurd hj (by simp)
        · rw [List.getElem?_set_ne (Ne.symm hji)] at hj
          obtain ⟨c0, info0, hg, hcell0, hready⟩ := h5 j k' v hj
          have hc0len : c0 < st.cells.length :=
            (List.getElem?_eq_some_iff.mp hcell0).1
          exact ⟨c0, info0, cacheGet_append_of_some _ hg,
            by rw [List.getElem?_append_left hc0len]; exact hcell0, hready⟩
      · intro c0 info0 hcell0 hready
        have hc0len : c0 < st.cells.length :=
          (List.getElem?_eq_some_iff.mp hcell0).1
        show (st.cells ++ [⟨.empty, 0⟩])[c0]? = some info0
        rw [List.getElem?_append_left hc0len]
        exact hcell0
    · -- known key: bind the caller to the existing cell
      have heq : cacheStep st i o =
          { st with callers := st.callers.set i (.atCell k c) } := by
        simp [cacheStep, hci, hgk]
      rw [heq]
      refine ⟨⟨h1, h2, ?_, ?_, ?_⟩, ?_⟩
      · intro j cs' k' c' hj hcell'
        by_cases hji : j = i
        · subst hji
          rw [List.getElem?_set_self hilen] at hj
          injection hj with hj2
          subst hj2
          simp only [callerCell, Option.some.injEq, Prod.mk.injEq] at hcell'
          obtain ⟨hk', hc'⟩ := hcell'
          subst hk'
          subst hc'
          exact hgk
        · rw [List.getElem?_set_ne (Ne.symm hji)] at hj
          exact h3 j cs' k' c' hj hcell'
      · intro c'
        simp only [callersInitializingOn]
        have hb : isRunningInitOn c' (CallerSt.start k) = false := rfl
        have ha : isRunningInitOn c' (CallerSt.atCell k c) = false := rfl
        rw [countP_set_same st.callers i _ _ _ hci hb ha]
        exact h4 c'
      · intro j k' v hj
        by_cases hji : j = i
        · subst hji
          rw [List.getElem?_set_self hilen] at hj
          exact absurd hj (by simp)
        · rw [List.getElem?_set_ne (Ne.symm hji)] at hj
          exact h5 j k' v hj
      · intro c0 info0 hcell0 hready
        exact hcell0
  | atCell k c =>
    have heq : cacheStep st i o = cacheAttempt st i k c := by
      simp [cacheStep, hci]
    rw [heq]
    exact cacheAttempt_inv hinv' hci rfl (fun _ => rfl)
  | waitingCell k c =>
    have heq : cacheStep st i o = cacheAttempt st i k c := by
      simp [cacheStep, hci]
    rw [heq]
    exact cacheAttempt_inv hinv' hci rfl (fun _ => rfl)
  | runningInit k c a =>
    rcases hc0 : st.cells[c]? with _ | info
    · have heq : cacheStep st i o = st := by simp [cacheStep, hci, hc0]
      rw [heq]
      exact ⟨hinv', fun _ _ h _ => h⟩
    have hkc : cacheGet st.cache k = some c := h3 i _ k c hci rfl
    have hclen : c < st.cells.length := by
      obtain ⟨p, hp, hpc⟩ := cacheGet_mem hkc
      have h6 := h2 p hp
      omega
    have hmem : CallerSt.runningInit k c a ∈ st.callers :=
      List.getElem?_mem hci
    have hpos : 0 < st.callers.countP (isRunningInitOn c) := by
      rw [List.countP_pos_iff]
      exact ⟨_, hmem, by simp [isRunningInitOn]⟩
    have hold := h4 c
    simp only [callersInitializingOn, hc0] at hold
    have hrun : info.st = .running := by
      by_contra hx
      rw [if_neg hx] at hold
      omega
    have hcount1 : st.callers.countP (isRunningInitOn c) = 1 := by
      rw [hold, if_pos hrun]
    -- done callers never point at the running cell c
    have hdone_ne : ∀ (j : Nat) k' v, st.callers[j]? = some (CallerSt.done k' (.ok v)) →
        ∀ c0 info0, cacheGet st.cache k' = some c0 → st.cells[c0]? = some info0 →
        info0.st = .ready v → c0 ≠ c := by
      intro j k' v hj c0 info0 hg hcell0 hready hcc
      subst hcc
      rw [hc0] at hcell0
      injection hcell0 with h7
      rw [← h7, hrun] at hready
      exact absurd hready (by simp)
    cases o with
    | true =>
      have heq : cacheStep st i true =
          { st with
            cells := st.cells.set c ⟨.ready a, info.inits⟩,
            callers := st.callers.set i (.done k (.ok a)) } := by
        simp [cacheStep, hci, hc0]
      rw [heq]
      refine ⟨⟨h1, ?_, ?_, ?_, ?_⟩, ?_⟩
      · intro p hp
        simpa [List.length_set] using h2 p hp
      · intro j cs' k' c' hj hcell'
        by_cases hji : j = i
        · subst hji
          rw [List.getElem?_set_self hilen] at hj
          injection hj with hj2
          subst hj2
          simp [callerCell] at hcell'
        · rw [List.getElem?_set_ne (Ne.symm hji)] at hj
          exact h3 j cs' k' c' hj hcell'
      · intro c'
        simp only [callersInitializingOn]
        by_cases hcc : c' = c
        · subst hcc
          have hb : isRunningInitOn c' (CallerSt.runningInit k c' a) = true := by
            simp [isRunningInitOn]
          have ha : isRunningInitOn c' (CallerSt.done k (.ok a)) = false := rfl
          have hdec := countP_set_decr st.callers i _ _ _ hci hb ha
          rw [List.getElem?_set_self hclen]
          simp only [reduceCtorEq, if_false]
          omega
        · have hb : isRunningInitOn c' (CallerSt.runningInit k c a) = false := by
            simp only [isRunningInitOn, beq_eq_false_iff_ne, ne_eq]
            exact fun h => hcc h.symm
          have ha : isRunningInitOn c' (CallerSt.done k (.ok a)) = false := rfl
          rw [countP_set_same st.callers i _ _ _ hci hb ha]
          have hold' := h4 c'
          simp only [callersInitializingOn] at hold'
          rw [List.getElem?_set_ne (fun h => hcc h.symm)]
          exact hold'
      · intro j k' v hj
        by_cases hji : j = i
        · subst hji
          rw [List.getElem?_set_self hilen] at hj
          injection hj with hj2
          injection hj2 with hk2 hv2
          injection hv2 with hv3
          subst hk2
          subst hv3
          exact ⟨c, ⟨.ready a, info.inits⟩, hkc,
            by rw [List.getElem?_set_self hclen], rfl⟩
        · rw [List.getElem?_set_ne (Ne.symm hji)] at hj
          obtain ⟨c0, info0, hg, hcell0, hready⟩ := h5 j k' v hj
          have hne := hdone_ne j k' v hj c0 info0 hg hcell0 hready
          exact ⟨c0, info0, hg,
            by rw [List.getElem?_set_ne (Ne.symm hne)]; exact hcell0, hready⟩
      · intro c0 info0 hcell0 hready
        have hc0c : c0 ≠ c := by
          intro hcc
          subst hcc
          rw [hc0] at hcell0
          injection hcell0 with h7
          rw [← h7] at hready
          simp [isReadyInfo, hrun] at hready
        show (st.cells.set c ⟨.ready a, info.inits⟩)[c0]? = some info0
        rw [List.getElem?_set_ne (Ne.symm hc0c)]
        exact hcell0
    | false =>
      have heq : cacheStep st i false =
          { st with
            cells := st.cells.set c ⟨.empty, info.inits⟩,
            callers := st.callers.set i (.done k (.fail a)) } := by
        simp [cacheStep, hci, hc0]
      rw [heq]
      refine ⟨⟨h1, ?_, ?_, ?_, ?_⟩, ?_⟩
      · intro p hp
        simpa [List.length_set] using h2 p hp
      · intro j cs' k' c' hj hcell'
        by_cases hji : j = i
        · subst hji
          rw [List.getElem?_set_self hilen] at hj
          injection hj with hj2
          subst hj2
          simp [callerCell] at hcell'
        · rw [List.getElem?_set_ne (Ne.symm hji)] at hj
          exact h3 j cs' k' c' hj hcell'
      · intro c'
        simp only [callersInitializingOn]
        by_cases hcc : c' = c
        · subst hcc
          have hb : isRunningInitOn c' (CallerSt.runningInit k c' a) = true := by
            simp [isRunningInitOn]
          have ha : isRunningInitOn c' (CallerSt.done k (.fail a)) = false := rfl
          have hdec := countP_set_decr st.callers i _ _ _ hci hb ha
          rw [List.getElem?_set_self hclen]
          simp only [reduceCtorEq, if_false]
          omega
        · have hb : isRunningInitOn c' (CallerSt.runningInit k c a) = false := by
            simp only [isRunningInitOn, beq_eq_false_iff_ne, ne_eq]
            exact fun h => hcc h.symm
          have ha : isRunningInitOn c' (CallerSt.done k (.fail a)) = false := rfl
          rw [countP_set_same st.callers i _ _ _ hci hb ha]
          have hold' := h4 c'
          simp only [callersInitializingOn] at hold'
          rw [List.getElem?_set_ne (fun h => hcc h.symm)]
          exact hold'
      · intro j k' v hj
        by_cases hji : j = i
        · subst hji
          rw [List.getElem?_set_self hilen] at hj
          injection hj with hj2
          injection hj2 with hk2 hv2
          exact absurd hv2 (by simp)
        · rw [List.getElem?_set_ne (Ne.symm hji)] at hj
          obtain ⟨c0, info0, hg, hcell0, hready⟩ := h5 j k' v hj
          have hne := hdone_ne j k' v hj c0 info0 hg hcell0 hready
          exact ⟨c0, info0, hg,
            by rw [List.getElem?_set_ne (Ne.symm hne)]; exact hcell0, hready⟩
      · intro c0 info0 hcell0 hready
        have hc0c : c0 ≠ c := by
          intro hcc
          subst hcc
          rw [hc0] at hcell0
          injection hcell0 with h7
          rw [← h7] at hready
          simp [isReadyInfo, hrun] at hready
        show (st.cells.set c ⟨.empty, info.inits⟩)[c0]? = some info0
        rw [List.getElem?_set_ne (Ne.symm hc0c)]
        exact hcell0
  | done k r =>
    have heq : cacheStep st i o = st := by simp [cacheStep, hci]
    rw [heq]
    exact ⟨hinv', fun _ _ h _ => h⟩

end DdnsWasmRuntime

namespace DdnsWasmRuntime

theorem cacheRun_inv {st : CacheState} (hinv : cacheInv st)
    (sched : List (Nat × Bool)) :
    cacheInv (cacheRun st sched) ∧
    (∀ (c0 : Nat) (info0 : CellInfo), st.cells[c0]? = some info0 →
      isReadyInfo info0 = true →
      (cacheRun st sched).cells[c0]? = some info0) := by
  induction sched generalizing st with
  | nil => exact ⟨hinv, fun _ _ h _ => h⟩
  | cons s rest ih =>
    have hstep := cacheStep_inv hinv s.1 s.2
    have hrec := ih hstep.1
    have hrw : cacheRun st (s :: rest) = cacheRun (cacheStep st s.1 s.2) rest := by
      simp [cacheRun]
    rw [hrw]
    refine ⟨hrec.1, ?_⟩
    intro c0 info0 h hr
    exact hrec.2 c0 info0 (hstep.2 c0 info0 h hr) hr

theorem cacheInit_inv (keys : List ModKey) : cacheInv (cacheInit keys) := by
  refine ⟨?_, ?_, ?_, ?_, ?_⟩
  · simp [cacheInit]
  · intro p hp
    simp [cacheInit] at hp
  · intro i cs k c hci hcell
    simp only [cacheInit, List.getElem?_map] at hci
    rcases hk : keys[i]? with _ | k0
    · rw [hk] at hci
      exact absurd hci (by simp)
    · rw [hk] at hci
      simp only [Option.map_some', Option.some.injEq] at hci
      subst hci
      exact absurd hcell (by simp [callerCell])
  · intro c
    simp only [cacheInit, callersInitializingOn]
    have hz : (keys.map CallerSt.start).countP (isRunningInitOn c) = 0 := by
      rw [List.countP_eq_zero]
      intro a ha
      rw [List.mem_map] at ha
      obtain ⟨k0, _, hk0⟩ := ha
      subst hk0
      simp [isRunningInitOn]
    rw [hz]
    simp
  · intro i k v hci
    simp only [cacheInit, List.getElem?_map] at hci
    rcases hk : keys[i]? with _ | k0
    · rw [hk] at hci
      exact absurd hci (by simp)
    · rw [hk] at hci
      simp at hci

end DdnsWasmRuntime

/-- C9 amended.  In the module cache's interleaving semantics (tokio OnceCell
per key, mutex-guarded map): callers naming the same module key are always
bound to the same cell; at most one initialization of a cell runs at any
time; once a cell is successfully initialized it stays so forever with the
same value and the same count of started initializations (so a successful
initialization is the last one ever started for that module); and every
caller that completes successfully returns exactly its key's cell's shared
ready value.  (Contrary to the original claim, a FAILED initialization's
error goes only to the caller that ran it, and a waiting caller may start a
fresh initialization - see the counterexample.) -/
theorem c9_module_cache_amended (keys : List DdnsWasmRuntime.ModKey)
    (sched : List (Nat × Bool)) :
    (∀ (i j : Nat) csi csj k ci cj,
      (DdnsWasmRuntime.cacheRun (DdnsWasmRuntime.cacheInit keys) sched).callers[i]? = some csi →
      (DdnsWasmRuntime.cacheRun (DdnsWasmRuntime.cacheInit keys) sched).callers[j]? = some csj →
      DdnsWasmRuntime.callerCell csi = some (k, ci) →
      DdnsWasmRuntime.callerCell csj = some (k, cj) → ci = cj) ∧
    (∀ c : Nat, DdnsWasmRuntime.callersInitializingOn
      (DdnsWasmRuntime.cacheRun (DdnsWasmRuntime.cacheInit keys) sched) c ≤ 1) ∧
    (∀ (c : Nat) (info : DdnsWasmRuntime.CellInfo),
      (DdnsWasmRuntime.cacheRun (DdnsWasmRuntime.cacheInit keys) sched).cells[c]? = some info →
      DdnsWasmRuntime.isReadyInfo info = true →
      ∀ sched2,
        (DdnsWasmRuntime.cacheRun
          (DdnsWasmRuntime.cacheRun (DdnsWasmRuntime.cacheInit keys) sched)
          sched2).cells[c]? = some info) ∧
    (∀ (i : Nat) k v,
      (DdnsWasmRuntime.cacheRun (DdnsWasmRuntime.cacheInit keys) sched).callers[i]? =
        some (DdnsWasmRuntime.CallerSt.done k (.ok v)) →
      ∃ c info,
        DdnsWasmRuntime.cacheGet
          (DdnsWasmRuntime.cacheRun (DdnsWasmRuntime.cacheInit keys) sched).cache k = some c ∧
        (DdnsWasmRuntime.cacheRun (DdnsWasmRuntime.cacheInit keys) sched).cells[c]? = some info ∧
        info.st = .ready v) := by
  have hrun := DdnsWasmRuntime.cacheRun_inv
    (DdnsWasmRuntime.cacheInit_inv keys) sched
  obtain ⟨⟨h1, h2, h3, h4, h5⟩, _⟩ := hrun
  refine ⟨?_, ?_, ?_, h5⟩
  · intro i j csi csj k ci cj hi hj hci hcj
    have hgi := h3 i csi k ci hi hci
    have hgj := h3 j csj k cj hj hcj
    rw [hgi] at hgj
    injection hgj
  · intro c
    rw [h4 c]
    rcases hc : (DdnsWasmRuntime.cacheRun (DdnsWasmRuntime.cacheInit keys) sched).cells[c]? with _ | info
    · show (0 : Nat) ≤ 1
      omega
    · show (if info.st = DdnsWasmRuntime.CellSt.running then 1 else 0) ≤ 1
      split <;> omega
  · intro c info hc hr sched2
    exact (DdnsWasmRuntime.cacheRun_inv ⟨h1, h2, h3, h4, h5⟩ sched2).2 c info hc hr

/-- Witness for the amended C9: one caller initializes module [107]
successfully (one initialization, value 0); afterwards any further schedule
leaves the cell permanently ready with the same value and initialization
count 1. -/
theorem c9_module_cache_amended_witness :
    (DdnsWasmRuntime.cacheRun
        (DdnsWasmRuntime.cacheRun (DdnsWasmRuntime.cacheInit [[107]])
          [(0, true), (0, true), (0, true)]) [(1, true)]).cells[0]? =
      some ⟨.ready 0, 1⟩ :=
  (c9_module_cache_amended [[107]] [(0, true), (0, true), (0, true)]).2.2.1
    0 ⟨.ready 0, 1⟩ rfl rfl [(1, true)]
